import Mathlib

/-!
Verification of the wrist-watch date/time library.

The library represents a date as a wrapper around a host timestamp: a count
of milliseconds since the Unix epoch (UTC).  We embed that representation as
`Int` (valid timestamps are exact integers in the host's float range, and all
arithmetic the library performs on them is exact integer arithmetic there).
The host's local-calendar field extraction and field-based construction
(getFullYear/getMonth/getDate/setMonth/setFullYear/setDate and the
`Date(y, m, d, h, mi, s, ms)` constructor) are modelled by the standard
proleptic-Gregorian day-number conversions below, with the host's local
timezone modelled as a fixed offset `tz` in milliseconds east of UTC,
threaded explicitly through every operation that touches local fields.
-/

namespace WW

set_option maxHeartbeats 1600000

/-- Result type of the library's parsing operations (`core/types.ts`):
success carrying a value, or failure carrying an error string. -/
inductive ParseResult (α : Type) where
  | success (value : α)
  | failure (error : String)
deriving Repr, DecidableEq

/-- Leap-year test of the proleptic Gregorian calendar, as implemented by the
host calendar the library delegates to. -/
def isLeap (y : Int) : Bool :=
  (y % 4 == 0 && y % 100 != 0) || y % 400 == 0

/-- Number of days in month `m` (1-indexed) of year `y`. -/
def daysInMonth (y m : Int) : Int :=
  if m = 2 then (if isLeap y then 29 else 28)
  else if m = 4 ∨ m = 6 ∨ m = 9 ∨ m = 11 then 30
  else 31

/-- Day number (days since 1970-01-01) of a civil date, by the standard
era-based algorithm; models the host's `MakeDay`/`Day` composition. -/
def daysFromCivil (y m d : Int) : Int :=
  let yy := if m ≤ 2 then y - 1 else y
  let era := yy / 400
  let yoe := yy - era * 400
  let mp := (m + 9) % 12
  let doy := (153 * mp + 2) / 5 + d - 1
  let doe := yoe * 365 + yoe / 4 - yoe / 100 + doy
  era * 146097 + doe - 719468

/-- Civil date (year, month 1-indexed, day) of a day number, the inverse
era-based algorithm; models the host's
`YearFromTime`/`MonthFromTime`/`DateFromTime` field extraction. -/
def civilFromDays (z : Int) : Int × Int × Int :=
  let z2 := z + 719468
  let era := z2 / 146097
  let doe := z2 - era * 146097
  let yoe := (doe - doe / 1460 + doe / 36524 - doe / 146096) / 365
  let y := yoe + era * 400
  let doy := doe - (365 * yoe + yoe / 4 - yoe / 100)
  let mp := (5 * doy + 2) / 153
  let d := doy - (153 * mp + 2) / 5 + 1
  let m := if mp < 10 then mp + 3 else mp - 9
  (if m ≤ 2 then y + 1 else y, m, d)

/-- Length of the month at shifted-month position `mp` (0 = March, ...,
11 = February) in the March-based year with year-of-era `yoe`. -/
def mpLen (yoe mp : Int) : Int :=
  if mp = 11 then
    (if ((yoe + 1) % 4 = 0 ∧ (yoe + 1) % 100 ≠ 0) ∨ (yoe + 1) % 400 = 0 then 29 else 28)
  else if mp = 1 ∨ mp = 3 ∨ mp = 6 ∨ mp = 8 then 30
  else 31

/-- Date/time components of an instant as returned by the host accessors
`getFullYear`, `getMonth` (0-indexed), `getDate`, `getHours`, `getMinutes`,
`getSeconds`, `getMilliseconds` applied to the local-time view. -/
structure Components where
  year : Int
  month0 : Int
  day : Int
  hour : Int
  minute : Int
  second : Int
  millisecond : Int
deriving Repr, DecidableEq

/-- Local-calendar field extraction from an instant `t`, with the host local
timezone modelled as the fixed offset `tz` (milliseconds east of UTC). -/
def localFields (tz t : Int) : Components :=
  let lt := t + tz
  let z := lt / 86400000
  let msod := lt % 86400000
  let c := civilFromDays z
  ⟨c.1, c.2.1 - 1, c.2.2, msod / 3600000, msod / 60000 % 60, msod / 1000 % 60, msod % 1000⟩

/-- Host `MakeDay`: day number from a year, a 0-indexed month (normalized by
carrying whole years), and a day-of-month (an arbitrary integer, handled by
the linearity of `daysFromCivil` in its day argument). -/
def makeDay (y m0 d : Int) : Int :=
  daysFromCivil (y + m0 / 12) (m0 % 12 + 1) d

/-- Host `Date.prototype.setMonth`: rebuild the instant from its local fields
with the 0-indexed month replaced by `m0`. -/
def jsSetMonth (tz t m0 : Int) : Int :=
  makeDay (localFields tz t).year m0 (localFields tz t).day * 86400000 +
    (t + tz) % 86400000 - tz

/-- Host `Date.prototype.setDate`: rebuild the instant from its local fields
with the day-of-month replaced by `d`. -/
def jsSetDate (tz t d : Int) : Int :=
  makeDay (localFields tz t).year (localFields tz t).month0 d * 86400000 +
    (t + tz) % 86400000 - tz

/-- Host `Date.prototype.setFullYear`: rebuild the instant from its local
fields with the year replaced by `y`. -/
def jsSetFullYear (tz t y : Int) : Int :=
  makeDay y (localFields tz t).month0 (localFields tz t).day * 86400000 +
    (t + tz) % 86400000 - tz

/-- Time units of the library (`core/types.ts`). -/
inductive TimeUnit where
  | year | month | week | day | hour | minute | second | millisecond
deriving Repr, DecidableEq

/-- Arithmetic `add` (`operations/arithmetic.ts`): fixed-duration units act
on the epoch milliseconds, month uses `setMonth` with a clamp through
`setDate(0)` when the day-of-month changed, year uses `setFullYear`. -/
def add (tz t amount : Int) (unit : TimeUnit) : Int :=
  match unit with
  | .millisecond => t + amount
  | .second => t + amount * 1000
  | .minute => t + amount * (1000 * 60)
  | .hour => t + amount * (1000 * 60 * 60)
  | .day => t + amount * (1000 * 60 * 60 * 24)
  | .week => t + amount * (1000 * 60 * 60 * 24 * 7)
  | .month =>
    let currentDay := (localFields tz t).day
    let r1 := jsSetMonth tz t ((localFields tz t).month0 + amount)
    if (localFields tz r1).day ≠ currentDay then jsSetDate tz r1 0 else r1
  | .year => jsSetFullYear tz t ((localFields tz t).year + amount)

/-- Arithmetic `subtract` (`operations/arithmetic.ts`): `add` with the
negated amount. -/
def subtract (tz t amount : Int) (unit : TimeUnit) : Int :=
  add tz t (-amount) unit

/-- Comparison `equals` (`operations/comparison.ts`): raw timestamp equality. -/
def equals (t1 t2 : Int) : Bool :=
  t1 == t2

/-- Comparison `isBefore` (`operations/comparison.ts`). -/
def isBefore (t1 t2 : Int) : Bool :=
  decide (t1 < t2)

/-- Comparison `isAfter` (`operations/comparison.ts`). -/
def isAfter (t1 t2 : Int) : Bool :=
  decide (t1 > t2)

/-- Comparison `isBetween` (`operations/comparison.ts`): inclusive on both
ends. -/
def isBetween (t s e : Int) : Bool :=
  decide (t ≥ s) && decide (t ≤ e)

/-- ASCII digit test, the `\d` character class of the parser's token
patterns. -/
def isAsciiDigit (c : Char) : Bool :=
  '0' ≤ c && c ≤ '9'

/-- ASCII letter test, the `[A-Za-z]` character class of the parser's
month-name token patterns. -/
def isAsciiAlpha (c : Char) : Bool :=
  ('A' ≤ c && c ≤ 'Z') || ('a' ≤ c && c ≤ 'z')

/-- Decimal digits of a natural number, with explicit recursion fuel so that
the definition is structural and kernel-reducible; `natDec` supplies enough
fuel for any input. -/
def natDecGo (fuel n : Nat) : List Char :=
  match fuel with
  | 0 => []
  | f + 1 =>
    if n < 10 then [Char.ofNat (48 + n)]
    else natDecGo f (n / 10) ++ [Char.ofNat (48 + n % 10)]

/-- Decimal digits of a natural number; models the host's number-to-string
conversion on nonnegative integers. -/
def natDec (n : Nat) : String :=
  String.mk (natDecGo (n + 1) n)

/-- Host `String(n)` on an integer. -/
def jsIntToString (i : Int) : String :=
  if i < 0 then "-" ++ natDec i.natAbs else natDec i.toNat

/-- Host `String.prototype.padStart(len, '0')`. -/
def padStart (s : String) (len : Nat) : String :=
  if s.length < len then String.mk (List.replicate (len - s.length) '0') ++ s else s

/-- The formatter's `padZero` helper (`operations/formatting.ts`):
`String(num).padStart(length, '0')`. -/
def padZero (num : Int) (len : Nat) : String :=
  padStart (jsIntToString num) len

/-- Host `parseInt` on the all-digit strings captured by the parser's digit
classes. -/
def digitsVal (s : String) : Int :=
  s.toList.foldl (fun a c => a * 10 + ((c.toNat : Int) - 48)) 0

/-- Host `String.prototype.toLowerCase` (ASCII, as used on month names). -/
def toLowerStr (s : String) : String :=
  String.mk (s.toList.map Char.toLower)

/-- Whitespace for the host's `String.prototype.trim`. -/
def isJsWhitespace (c : Char) : Bool :=
  c == ' ' || c == '\t' || c == '\n' || c == '\r'

/-- Host `String.prototype.trim`. -/
def jsTrim (s : String) : String :=
  String.mk (((s.toList.dropWhile isJsWhitespace).reverse.dropWhile isJsWhitespace).reverse)

/-- Month names (`operations/formatting.ts`). -/
def MONTH_NAMES : List String :=
  ["January", "February", "March", "April", "May", "June",
   "July", "August", "September", "October", "November", "December"]

/-- Short month names (identical lists in `operations/formatting.ts` and
`parsers/custom.ts`). -/
def MONTH_NAMES_SHORT : List String :=
  ["Jan", "Feb", "Mar", "Apr", "May", "Jun",
   "Jul", "Aug", "Sep", "Oct", "Nov", "Dec"]

/-- Day-of-week names (`operations/formatting.ts`). -/
def DAY_NAMES : List String :=
  ["Sunday", "Monday", "Tuesday", "Wednesday", "Thursday", "Friday", "Saturday"]

/-- Short day-of-week names (`operations/formatting.ts`). -/
def DAY_NAMES_SHORT : List String :=
  ["Sun", "Mon", "Tue", "Wed", "Thu", "Fri", "Sat"]

/-- Full month names of the parser (`parsers/custom.ts`), same content as
`MONTH_NAMES`. -/
def MONTH_NAMES_FULL : List String :=
  ["January", "February", "March", "April", "May", "June",
   "July", "August", "September", "October", "November", "December"]

/-- Host `Date.prototype.getDay`: day of week (0 = Sunday) of the local-time
view. -/
def weekDay (tz t : Int) : Int :=
  ((t + tz) / 86400000 + 4) % 7

/-- Expansion of one format token at an instant, following
`createFormatTokens` (`operations/formatting.ts`). -/
def tokenValue (tz t : Int) (tok : String) : String :=
  match tok with
  | "YYYY" => jsIntToString (localFields tz t).year
  | "YY" => padStart (jsIntToString (Int.tmod (localFields tz t).year 100)) 2
  | "MMMM" => MONTH_NAMES.getD (localFields tz t).month0.toNat ""
  | "MMM" => MONTH_NAMES_SHORT.getD (localFields tz t).month0.toNat ""
  | "MM" => padZero ((localFields tz t).month0 + 1) 2
  | "M" => jsIntToString ((localFields tz t).month0 + 1)
  | "DD" => padZero (localFields tz t).day 2
  | "D" => jsIntToString (localFields tz t).day
  | "dddd" => DAY_NAMES.getD (weekDay tz t).toNat ""
  | "ddd" => DAY_NAMES_SHORT.getD (weekDay tz t).toNat ""
  | "HH" => padZero (localFields tz t).hour 2
  | "H" => jsIntToString (localFields tz t).hour
  | "mm" => padZero (localFields tz t).minute 2
  | "m" => jsIntToString (localFields tz t).minute
  | "ss" => padZero (localFields tz t).second 2
  | "s" => jsIntToString (localFields tz t).second
  | "SSS" => padZero (localFields tz t).millisecond 3
  | _ => ""

/-- The formatter's token keys sorted longest first (`Object.keys` order of
`createFormatTokens` under the stable by-length sort in `format`). -/
def formatTokenKeys : List String :=
  ["YYYY", "MMMM", "dddd", "MMM", "ddd", "SSS",
   "YY", "MM", "DD", "HH", "mm", "ss", "M", "D", "H", "m", "s"]

/-- First key of `keys` that is a prefix of `cs`, with its length; models the
inner token-matching loop of both `format` and `parseCustom`. -/
def tryTok (keys : List String) (cs : List Char) : Option (String × Nat) :=
  match keys with
  | [] => none
  | k :: rest =>
    if cs.take k.toList.length = k.toList then some (k, k.toList.length)
    else tryTok rest cs

/-- Scanner loop of `format` (`operations/formatting.ts`): bracket-delimited
literal mode, then longest-token match, else verbatim copy.  A matched key
always has length at least one, so consuming `rest.drop (len - 1)` after the
head equals consuming `len` characters of the input.  The loop consumes at
least one character per iteration; the explicit fuel (at least the input
length) makes the recursion structural and kernel-reducible. -/
def formatGo (tz t : Int) (fuel : Nat) (inLit : Bool) (cs : List Char) : String :=
  match fuel with
  | 0 => ""
  | f + 1 =>
    match cs with
    | [] => ""
    | c :: rest =>
      if c = '[' then formatGo tz t f true rest
      else if c = ']' then formatGo tz t f false rest
      else if inLit then String.mk [c] ++ formatGo tz t f inLit rest
      else
        match tryTok formatTokenKeys (c :: rest) with
        | some kn => tokenValue tz t kn.1 ++ formatGo tz t f inLit (rest.drop (kn.2 - 1))
        | none => String.mk [c] ++ formatGo tz t f inLit rest

/-- Formatter `format(date, pattern)` (`operations/formatting.ts`). -/
def format (tz t : Int) (pattern : String) : String :=
  formatGo tz t pattern.toList.length false pattern.toList

/-- The parser's token keys sorted longest first (`Object.keys` order of
`PARSE_TOKENS` under the stable by-length sort in `parseCustom`). -/
def parseTokenKeys : List String :=
  ["YYYY", "MMMM", "MMM", "SSS",
   "YY", "MM", "DD", "HH", "mm", "ss", "M", "D", "H", "m", "s"]

/-- One segment of a parsed format pattern: a token or a literal character
(`parseCustom`'s `parts`). -/
inductive Seg where
  | token (name : String)
  | lit (c : Char)
deriving Repr, DecidableEq

/-- Segmentation loop of `parseCustom`: split the format string into tokens
(longest match first) and literal characters.  It consumes at least one
character per iteration; the explicit fuel (at least the input length)
makes the recursion structural and kernel-reducible. -/
def segmentGoF (fuel : Nat) (cs : List Char) : List Seg :=
  match fuel with
  | 0 => []
  | f + 1 =>
    match cs with
    | [] => []
    | c :: rest =>
      match tryTok parseTokenKeys (c :: rest) with
      | some kn => Seg.token kn.1 :: segmentGoF f (rest.drop (kn.2 - 1))
      | none => Seg.lit c :: segmentGoF f rest

/-- Segmentation of a format string. -/
def segmentGo (cs : List Char) : List Seg :=
  segmentGoF cs.length cs

/-- Length of the maximal ASCII-letter prefix of a character list. -/
def letterRun (cs : List Char) : Nat :=
  match cs with
  | [] => 0
  | c :: rest => if isAsciiAlpha c then letterRun rest + 1 else 0

/-- Whether a parser token captures with the letter class `[A-Za-z]+`
(month-name tokens); every other token captures digits. -/
def tokAlphaCap (k : String) : Bool :=
  k == "MMMM" || k == "MMM"

/-- Candidate capture lengths for a token at the head of the remaining input,
in the order a backtracking regex engine tries them: fixed widths for
`\d{4}`, `\d{3}`, `\d{2}`; greedy two-then-one for `\d{1,2}`; greedy longest
letter run first for `[A-Za-z]+`. -/
def candidateLens (k : String) (cs : List Char) : List Nat :=
  if k = "YYYY" then [4]
  else if k = "SSS" then [3]
  else if tokAlphaCap k then (List.range (letterRun cs)).reverse.map (· + 1)
  else if k = "M" ∨ k = "D" ∨ k = "H" ∨ k = "m" ∨ k = "s" then [2, 1]
  else [2]

/-- Character-class check for a candidate capture. -/
def capClassOk (k : String) (cap : List Char) : Bool :=
  if tokAlphaCap k then cap.all isAsciiAlpha else cap.all isAsciiDigit

/-- Anchored match of the segment list against the input, returning the
captured group of every token segment in order; models the host regex
engine's leftmost, greedy, backtracking semantics on the fragment of regexes
`parseCustom` builds (concatenations of digit runs, letter runs, and escaped
literal characters). -/
def matchSegs (segs : List Seg) (cs : List Char) : Option (List (String × String)) :=
  match segs, cs with
  | [], [] => some []
  | [], _ :: _ => none
  | Seg.lit _ :: _, [] => none
  | Seg.lit c :: rest, x :: xs => if x = c then matchSegs rest xs else none
  | Seg.token k :: rest, cs =>
    (candidateLens k cs).findSome? (fun n =>
      if n ≤ cs.length then
        if capClassOk k (cs.take n) then
          (matchSegs rest (cs.drop n)).map (fun caps => (k, String.mk (cs.take n)) :: caps)
        else none
      else none)

/-- Last captured value for a token name; models the extraction loop
`values[tokenOrder[i]] = match[i + 1]`, where later occurrences overwrite
earlier ones. -/
def lastCapture (caps : List (String × String)) (k : String) : Option String :=
  ((caps.filter (fun p => p.1 == k)).getLast?).map (fun p => p.2)

/-- Case-insensitive month-name lookup (`findIndex` with `toLowerCase`). -/
def monthIdx (names : List String) (v : String) : Option Nat :=
  names.findIdx? (fun nm => toLowerStr nm == toLowerStr v)

/-- Host `Date` range check (`TimeClip`): a stored time value is valid (not
NaN) when its magnitude is at most 8.64e15 milliseconds. -/
def jsValidTime (t : Int) : Bool :=
  decide (-8640000000000000 ≤ t ∧ t ≤ 8640000000000000)

/-- Host `new Date(year, month0, day, h, mi, s, ms)` constructor value:
`MakeFullYear` maps years 0..99 to 1900 + year, then `MakeDay`/`MakeTime`
build local time, converted to UTC by subtracting the offset. -/
def makeInstant (tz y m0 d h mi s ms : Int) : Int :=
  let yr := if 0 ≤ y ∧ y ≤ 99 then 1900 + y else y
  makeDay yr m0 d * 86400000 + (h * 3600000 + mi * 60000 + s * 1000 + ms) - tz

/-- Custom-pattern parser `parseCustom(input, format)` (`parsers/custom.ts`).
The ambient current year read from the host clock for the year default is
passed explicitly as `nowYear`; the success value is the millisecond
timestamp of the constructed instant. -/
def parseCustom (tz nowYear : Int) (input fmt : String) : ParseResult Int :=
  if jsTrim input = "" ∨ jsTrim fmt = "" then
    .failure "Input and format cannot be empty"
  else
    let segs := segmentGo fmt.toList
    if fmt.toList.length * 2 ≤ segs.length then
      .failure "Format parsing exceeded maximum iterations"
    else
      match matchSegs segs input.toList with
      | none => .failure ("Input \"" ++ input ++ "\" does not match format \"" ++ fmt ++ "\"")
      | some caps =>
        let year : Int :=
          match lastCapture caps "YYYY" with
          | some v => digitsVal v
          | none =>
            match lastCapture caps "YY" with
            | some v => 2000 + digitsVal v
            | none => nowYear
        let month : Int :=
          match lastCapture caps "MMMM" with
          | some v =>
            match monthIdx MONTH_NAMES_FULL v with
            | some idx => (idx : Int) + 1
            | none => 1
          | none =>
            match lastCapture caps "MMM" with
            | some v =>
              match monthIdx MONTH_NAMES_SHORT v with
              | some idx => (idx : Int) + 1
              | none => 1
            | none =>
              match lastCapture caps "MM" with
              | some v => digitsVal v
              | none =>
                match lastCapture caps "M" with
                | some v => digitsVal v
                | none => 1
        let day : Int :=
          match lastCapture caps "DD" with
          | some v => digitsVal v
          | none =>
            match lastCapture caps "D" with
            | some v => digitsVal v
            | none => 1
        let hour : Int :=
          match lastCapture caps "HH" with
          | some v => digitsVal v
          | none =>
            match lastCapture caps "H" with
            | some v => digitsVal v
            | none => 0
        let minute : Int :=
          match lastCapture caps "mm" with
          | some v => digitsVal v
          | none =>
            match lastCapture caps "m" with
            | some v => digitsVal v
            | none => 0
        let second : Int :=
          match lastCapture caps "ss" with
          | some v => digitsVal v
          | none =>
            match lastCapture caps "s" with
            | some v => digitsVal v
            | none => 0
        let ms : Int :=
          match lastCapture caps "SSS" with
          | some v => digitsVal v
          | none => 0
        let t := makeInstant tz year (month - 1) day hour minute second ms
        if jsValidTime t then .success t
        else .failure ("Invalid date components parsed from \"" ++ input ++ "\"")

/-- Read two ASCII digits. -/
def read2 (cs : List Char) : Option (Int × List Char) :=
  match cs with
  | a :: b :: rest =>
    if isAsciiDigit a && isAsciiDigit b then
      some (((a.toNat : Int) - 48) * 10 + ((b.toNat : Int) - 48), rest)
    else none
  | _ => none

/-- Read three ASCII digits. -/
def read3 (cs : List Char) : Option (Int × List Char) :=
  match cs with
  | a :: rest =>
    if isAsciiDigit a then
      (read2 rest).map (fun p => (((a.toNat : Int) - 48) * 100 + p.1, p.2))
    else none
  | _ => none

/-- Read four ASCII digits. -/
def read4 (cs : List Char) : Option (Int × List Char) :=
  match read2 cs with
  | some (hi, rest) => (read2 rest).map (fun p => (hi * 100 + p.1, p.2))
  | none => none

/-- Clip a candidate time value to the host `Date` range. -/
def clipTime (t : Int) : Option Int :=
  if jsValidTime t then some t else none

/-- Read an ISO timezone offset body `HH:mm` (after the sign character),
returning it in milliseconds. -/
def readOffset (cs : List Char) : Option Int :=
  match read2 cs with
  | some (oh, ':' :: rest) =>
    match read2 rest with
    | some (om, []) =>
      if 23 < oh ∨ 59 < om then none else some (oh * 3600000 + om * 60000)
    | _ => none
  | _ => none

/-- Parse the time-of-day part of an ISO 8601 string (after the `T`):
`HH:mm`, `HH:mm:ss` or `HH:mm:ss.SSS`, followed by an optional offset
(`Z` or `±HH:mm`); without an offset the time is interpreted in the local
timezone, per the host's ISO parsing rules. -/
def hostParseTimePart (tz dayNum : Int) (cs : List Char) : Option Int :=
  match read2 cs with
  | some (hh, ':' :: rest2) =>
    match read2 rest2 with
    | some (mi, rest3) =>
      let finish := fun (ss ms : Int) (tail : List Char) =>
        if 23 < hh ∨ 59 < mi ∨ 59 < ss then none
        else
          let msod := hh * 3600000 + mi * 60000 + ss * 1000 + ms
          match tail with
          | [] => clipTime (dayNum * 86400000 + msod - tz)
          | ['Z'] => clipTime (dayNum * 86400000 + msod)
          | '+' :: off => (readOffset off).bind (fun o => clipTime (dayNum * 86400000 + msod - o))
          | '-' :: off => (readOffset off).bind (fun o => clipTime (dayNum * 86400000 + msod + o))
          | _ => none
      match rest3 with
      | ':' :: rest4 =>
        match read2 rest4 with
        | some (ss, '.' :: rest6) =>
          match read3 rest6 with
          | some (ms, rest7) => finish ss ms rest7
          | none => none
        | some (ss, rest5) => finish ss 0 rest5
        | none => none
      | _ => finish 0 0 rest3
    | none => none
  | _ => none

/-- Model of the host's `Date.parse` / `new Date(string)` on the ISO 8601
formats the library relies on: `YYYY`, `YYYY-MM`, `YYYY-MM-DD` (interpreted
as UTC), each optionally followed by `T` and a time part (interpreted as
local time unless an explicit offset or `Z` is present); out-of-range
calendar or clock fields and anything outside this grammar yield an invalid
date (`none`, the NaN timestamp). -/
def hostParse (tz : Int) (s : String) : Option Int :=
  match read4 s.toList with
  | none => none
  | some (y, rest) =>
    match rest with
    | [] => clipTime (daysFromCivil y 1 1 * 86400000)
    | '-' :: rest2 =>
      match read2 rest2 with
      | none => none
      | some (mo, rest3) =>
        if mo < 1 ∨ 12 < mo then none
        else
          match rest3 with
          | [] => clipTime (daysFromCivil y mo 1 * 86400000)
          | '-' :: rest4 =>
            match read2 rest4 with
            | none => none
            | some (d, rest5) =>
              if d < 1 ∨ daysInMonth y mo < d then none
              else
                match rest5 with
                | [] => clipTime (daysFromCivil y mo d * 86400000)
                | 'T' :: rest6 => hostParseTimePart tz (daysFromCivil y mo d) rest6
                | _ => none
          | _ => none
    | _ => none

/-- The `WristWatch` constructor's date-only test
(`/^\d{4}-\d{2}-\d{2}$/.test(input.trim())`). -/
def dateOnlyPattern (s : String) : Bool :=
  match s.toList with
  | [a, b, c, d, e, f, g, h, i, j] =>
    isAsciiDigit a && isAsciiDigit b && isAsciiDigit c && isAsciiDigit d &&
      e == '-' && isAsciiDigit f && isAsciiDigit g &&
      h == '-' && isAsciiDigit i && isAsciiDigit j
  | _ => false

/-- The string the `WristWatch` constructor hands to the host date parser:
`input + 'T00:00:00'` when the trimmed input matches the date-only pattern,
the input unchanged otherwise (`core/WristWatch.ts`). -/
def ctorArg (input : String) : String :=
  if dateOnlyPattern (jsTrim input) then input ++ "T00:00:00" else input

/-- Instant stored by `new WristWatch(string)`: host-parse the constructor's
argument string; `none` is the invalid (NaN) date. -/
def wwFromString (tz : Int) (input : String) : Option Int :=
  hostParse tz (ctorArg input)

/-- A JavaScript value that may or may not be a string, for the parsers'
`typeof input !== 'string'` guard. -/
inductive JsVal where
  | str (s : String)
  | other
deriving Repr, DecidableEq

/-- ISO parser `parseISO(input)` (`parsers/iso.ts`): non-string input fails,
empty or whitespace-only input fails, a host parse producing an invalid
(NaN) date fails with a descriptive message, otherwise success.  The
function is total: every branch returns a `ParseResult`, mirroring the
source, whose `new Date(input)` never throws. -/
def parseISO (tz : Int) (input : JsVal) : ParseResult Int :=
  match input with
  | .other => .failure "Input must be a string"
  | .str s =>
    if jsTrim s = "" then .failure "Input string cannot be empty"
    else
      match hostParse tz s with
      | none => .failure ("Invalid ISO 8601 date string: " ++ s)
      | some t => .success t

/-- A JavaScript number: finite (an integral time value; `TimeClip` truncates
fractions, which we omit), NaN, or an infinity. -/
inductive JsNum where
  | finite (v : Int)
  | nan
  | posInf
  | negInf
deriving Repr, DecidableEq

/-- Host `new Date(number)`: finite values within the `TimeClip` range are
stored exactly; NaN, infinities and out-of-range values give an invalid
date (`none`). -/
def jsDateFromNum (n : JsNum) : Option Int :=
  match n with
  | .finite v => if jsValidTime v then some v else none
  | _ => none

/-- Timestamp parser `parseTimestamp(input)` (`parsers/timestamp.ts`):
`new WristWatch(input)` on a number; total, never fails. -/
def parseTimestamp (n : JsNum) : Option Int :=
  jsDateFromNum n

/-- A `string | number` input for the `parse` dispatcher. -/
inductive JsPrim where
  | str (s : String)
  | num (n : JsNum)
deriving Repr, DecidableEq

/-- General parser `parse(input)` (`parsers/index.ts`): numbers go through
`parseTimestamp` and always succeed (the carried instant may be the invalid
NaN date, modelled as `none`); strings try `parseISO` first, then fall back
to the host's general date parsing, and fail only if both fail. -/
def parse (tz : Int) (input : JsPrim) : ParseResult (Option Int) :=
  match input with
  | .num n => .success (parseTimestamp n)
  | .str s =>
    match parseISO tz (.str s) with
    | .success t => .success (some t)
    | .failure _ =>
      match hostParse tz s with
      | some t => .success (some t)
      | none => .failure ("Unable to parse date string: " ++ s)

/-- The six fixed-width tokens of claim C4's patterns. -/
inductive PatTok where
  | Y4 | Mo2 | Da2 | Ho2 | Mi2 | Se2
deriving Repr, DecidableEq

/-- Token string of a `PatTok`. -/
def patTokStr : PatTok → String
  | .Y4 => "YYYY"
  | .Mo2 => "MM"
  | .Da2 => "DD"
  | .Ho2 => "HH"
  | .Mi2 => "mm"
  | .Se2 => "ss"

/-- One item of an abstract pattern: a token occurrence or a separator
character. -/
inductive PatItem where
  | ptok (t : PatTok)
  | psep (c : Char)
deriving Repr, DecidableEq

/-- Characters of one pattern item. -/
def renderItem : PatItem → List Char
  | .ptok t => (patTokStr t).toList
  | .psep c => [c]

/-- Characters of an abstract pattern. -/
def renderPat (items : List PatItem) : List Char :=
  items.foldr (fun it acc => renderItem it ++ acc) []

/-- A separator character: not a character of any format or parse token
(`Y M D H m s S d`), not a literal-mode bracket, and not `*` (which the
parser's literal escaping leaves unescaped in the built regex). -/
def sepChar (c : Char) : Bool :=
  !(c == 'Y' || c == 'M' || c == 'D' || c == 'H' || c == 'm' || c == 's' ||
    c == 'S' || c == 'd' || c == '[' || c == ']' || c == '*')

/-- The list does not start with a token item. -/
def headNotTok : List PatItem → Prop
  | PatItem.ptok _ :: _ => False
  | _ => True

/-- Well-formed abstract pattern: all separators are separator characters
and no two token occurrences are adjacent. -/
def wfItems : List PatItem → Prop
  | [] => True
  | PatItem.psep c :: rest => sepChar c = true ∧ wfItems rest
  | PatItem.ptok _ :: rest => headNotTok rest ∧ wfItems rest

/-- The text the formatter emits for one of C4's tokens at an instant. -/
def fieldStr (tz x : Int) : PatTok → String
  | .Y4 => jsIntToString (localFields tz x).year
  | .Mo2 => padZero ((localFields tz x).month0 + 1) 2
  | .Da2 => padZero (localFields tz x).day 2
  | .Ho2 => padZero (localFields tz x).hour 2
  | .Mi2 => padZero (localFields tz x).minute 2
  | .Se2 => padZero (localFields tz x).second 2

/-- The formatter's whole output on an abstract pattern. -/
def renderOut (tz x : Int) (items : List PatItem) : String :=
  items.foldr
    (fun it acc =>
      (match it with
       | PatItem.ptok t => fieldStr tz x t
       | PatItem.psep c => String.mk [c]) ++ acc) ""

/-- Segment corresponding to one pattern item. -/
def segOf : PatItem → Seg
  | .ptok t => Seg.token (patTokStr t)
  | .psep c => Seg.lit c

/-- Captures the matcher produces on an abstract pattern's own output. -/
def capsOf (tz x : Int) (items : List PatItem) : List (String × String) :=
  items.filterMap
    (fun it =>
      match it with
      | PatItem.ptok t => some (patTokStr t, fieldStr tz x t)
      | PatItem.psep _ => none)

/-- Bundle of the local-field range facts the C4 lemmas consume. -/
def fieldsBounded (tz x : Int) : Prop :=
  1000 ≤ (localFields tz x).year ∧ (localFields tz x).year ≤ 9999 ∧
  0 ≤ (localFields tz x).month0 ∧ (localFields tz x).month0 ≤ 11 ∧
  1 ≤ (localFields tz x).day ∧ (localFields tz x).day ≤ 31 ∧
  0 ≤ (localFields tz x).hour ∧ (localFields tz x).hour ≤ 23 ∧
  0 ≤ (localFields tz x).minute ∧ (localFields tz x).minute ≤ 59 ∧
  0 ≤ (localFields tz x).second ∧ (localFields tz x).second ≤ 59

/-- Field value a C4 token renders and the parser recovers. -/
def fieldValOf (tz x : Int) : PatTok → Int
  | .Y4 => (localFields tz x).year
  | .Mo2 => (localFields tz x).month0 + 1
  | .Da2 => (localFields tz x).day
  | .Ho2 => (localFields tz x).hour
  | .Mi2 => (localFields tz x).minute
  | .Se2 => (localFields tz x).second

/-- Recovery of the year-of-era from a day-of-era (the correction-term
division in `civilFromDays` inverts the day-of-era formula). -/
theorem yoe_recover (yoe doy doe : Int)
    (hdoe : doe = yoe * 365 + yoe / 4 - yoe / 100 + doy)
    (h1 : 0 ≤ yoe) (h2 : yoe ≤ 399) (h3 : 0 ≤ doy)
    (h4 : doy ≤ 364 ∨ (doy = 365 ∧
      (((yoe + 1) % 4 = 0 ∧ (yoe + 1) % 100 ≠ 0) ∨ (yoe + 1) % 400 = 0))) :
    (doe - doe / 1460 + doe / 36524 - doe / 146096) / 365 = yoe := by
  interval_cases yoe <;> omega

/-- Shifted-month recovery: the `(5 * doy + 2) / 153` division in
`civilFromDays` inverts the day-of-year formula. -/
theorem mp_recover (mp d doy : Int) (hdoy : doy = (153 * mp + 2) / 5 + d - 1)
    (h3 : 0 ≤ mp) (h4 : mp ≤ 11) (h5 : 1 ≤ d) (h6 : d ≤ 31)
    (h7 : mp = 11 → d ≤ 29) (h8 : mp = 1 ∨ mp = 3 ∨ mp = 6 ∨ mp = 8 → d ≤ 30) :
    (5 * doy + 2) / 153 = mp := by
  interval_cases mp <;> omega

/-- Full characterization of `civilFromDays` on a day number written in
era/year-of-era/shifted-month/day form. -/
theorem civilFromDays_spec (z era yoe mp d : Int)
    (hz : z + 719468 =
      era * 146097 + (yoe * 365 + yoe / 4 - yoe / 100 + ((153 * mp + 2) / 5 + d - 1)))
    (h1 : 0 ≤ yoe) (h2 : yoe ≤ 399) (h3 : 0 ≤ mp) (h4 : mp ≤ 11) (h5 : 1 ≤ d)
    (h6 : d ≤ mpLen yoe mp) :
    civilFromDays z =
      (if 10 ≤ mp then era * 400 + yoe + 1 else era * 400 + yoe,
       if mp < 10 then mp + 3 else mp - 9, d) := by
  have hoff1 : 0 ≤ (153 * mp + 2) / 5 := by omega
  have hoff2 : (153 * mp + 2) / 5 ≤ 337 := by omega
  have hdoy1 : 0 ≤ (153 * mp + 2) / 5 + d - 1 := by omega
  have h31 : d ≤ 31 := by
    unfold mpLen at h6
    split_ifs at h6 <;> omega
  have h29 : mp = 11 → d ≤ 29 := by
    intro hmp
    unfold mpLen at h6
    split_ifs at h6 <;> omega
  have h30 : mp = 1 ∨ mp = 3 ∨ mp = 6 ∨ mp = 8 → d ≤ 30 := by
    intro hmp
    unfold mpLen at h6
    split_ifs at h6 <;> omega
  have hdoy2 : (153 * mp + 2) / 5 + d - 1 ≤ 364 ∨ ((153 * mp + 2) / 5 + d - 1 = 365 ∧
      (((yoe + 1) % 4 = 0 ∧ (yoe + 1) % 100 ≠ 0) ∨ (yoe + 1) % 400 = 0)) := by
    unfold mpLen at h6
    split_ifs at h6 <;> omega
  simp only [civilFromDays]
  have e1 : (z + 719468) / 146097 = era := by omega
  rw [e1]
  have e2 : z + 719468 - era * 146097 =
      yoe * 365 + yoe / 4 - yoe / 100 + ((153 * mp + 2) / 5 + d - 1) := by omega
  rw [e2]
  rw [yoe_recover yoe ((153 * mp + 2) / 5 + d - 1) _ rfl h1 h2 hdoy1 hdoy2]
  have e4 : yoe * 365 + yoe / 4 - yoe / 100 + ((153 * mp + 2) / 5 + d - 1) -
      (365 * yoe + yoe / 4 - yoe / 100) = (153 * mp + 2) / 5 + d - 1 := by ring
  rw [e4]
  rw [mp_recover mp d _ rfl h3 h4 h5 h31 h29 h30]
  have e6 : (153 * mp + 2) / 5 + d - 1 - (153 * mp + 2) / 5 + 1 = d := by ring
  rw [e6]
  have hy : yoe + era * 400 = era * 400 + yoe := by ring
  rw [hy]
  split_ifs <;> simp only [Prod.mk.injEq, and_true, true_and] <;> omega

/-- Arithmetic restatement of `daysInMonth` with the boolean leap test
expanded into propositional form (for use with `omega`). -/
theorem daysInMonth_eq (y m : Int) : daysInMonth y m =
    if m = 2 then (if ((y % 4 = 0 ∧ y % 100 ≠ 0) ∨ y % 400 = 0) then 29 else 28)
    else if m = 4 ∨ m = 6 ∨ m = 9 ∨ m = 11 then 30 else 31 := by
  unfold daysInMonth isLeap
  rcases Decidable.em (m = 2) with h | h <;>
    simp [h, Bool.or_eq_true, Bool.and_eq_true, beq_iff_eq, bne_iff_ne]

/-- Field extraction is a left inverse of day-number construction on valid
civil dates: decomposing `daysFromCivil y m d` yields `(y, m, d)` again. -/
theorem civil_roundtrip (y m d : Int) (hm1 : 1 ≤ m) (hm2 : m ≤ 12)
    (hd1 : 1 ≤ d) (hd2 : d ≤ daysInMonth y m) :
    civilFromDays (daysFromCivil y m d) = (y, m, d) := by
  have hdim := daysInMonth_eq y m
  rw [hdim] at hd2
  rcases Decidable.em (m ≤ 2) with hm | hm
  · have hz : daysFromCivil y m d + 719468 =
        (y - 1) / 400 * 146097 +
          ((y - 1 - (y - 1) / 400 * 400) * 365 + (y - 1 - (y - 1) / 400 * 400) / 4 -
            (y - 1 - (y - 1) / 400 * 400) / 100 + ((153 * ((m + 9) % 12) + 2) / 5 + d - 1)) := by
      simp only [daysFromCivil, if_pos hm]
      ring
    have h6 : d ≤ mpLen (y - 1 - (y - 1) / 400 * 400) ((m + 9) % 12) := by
      unfold mpLen
      split_ifs at hd2 ⊢ <;> omega
    have := civilFromDays_spec (daysFromCivil y m d) ((y - 1) / 400)
      (y - 1 - (y - 1) / 400 * 400) ((m + 9) % 12) d hz (by omega) (by omega) (by omega)
      (by omega) hd1 h6
    rw [this]
    clear this hz h6 hd2 hdim hd1
    split_ifs <;> simp only [Prod.mk.injEq, and_true, true_and] <;> omega
  · have hz : daysFromCivil y m d + 719468 =
        y / 400 * 146097 +
          ((y - y / 400 * 400) * 365 + (y - y / 400 * 400) / 4 -
            (y - y / 400 * 400) / 100 + ((153 * ((m + 9) % 12) + 2) / 5 + d - 1)) := by
      simp only [daysFromCivil, if_neg hm]
      ring
    have h6 : d ≤ mpLen (y - y / 400 * 400) ((m + 9) % 12) := by
      unfold mpLen
      split_ifs at hd2 ⊢ <;> omega
    have := civilFromDays_spec (daysFromCivil y m d) (y / 400)
      (y - y / 400 * 400) ((m + 9) % 12) d hz (by omega) (by omega) (by omega)
      (by omega) hd1 h6
    rw [this]
    clear this hz h6 hd2 hdim hd1
    split_ifs <;> simp only [Prod.mk.injEq, and_true, true_and] <;> omega

/-- Range and day-of-year characterization of the year-of-era recovered by
the correction-term division, for any day-of-era. -/
theorem yoe_inv_range (doe Y : Int) (h1 : 0 ≤ doe) (h2 : doe ≤ 146096)
    (hY : Y = (doe - doe / 1460 + doe / 36524 - doe / 146096) / 365) :
    0 ≤ Y ∧ Y ≤ 399 ∧ (0 ≤ doe - (365 * Y + Y / 4 - Y / 100) ∧
      (doe - (365 * Y + Y / 4 - Y / 100) ≤ 364 ∨
        (doe - (365 * Y + Y / 4 - Y / 100) = 365 ∧
          (((Y + 1) % 4 = 0 ∧ (Y + 1) % 100 ≠ 0) ∨ (Y + 1) % 400 = 0)))) := by
  have hb1 : 0 ≤ Y := by omega
  have hb2 : Y ≤ 399 := by omega
  refine ⟨hb1, hb2, ?_⟩
  interval_cases Y <;> omega

/-- Complete characterization of field extraction at an arbitrary day number:
the extracted fields are a valid civil date whose day number is the input. -/
theorem civilFromDays_decomp (z z2 era doe Y doy mp d m y : Int)
    (h0 : z2 = z + 719468) (h1 : era = z2 / 146097) (h2 : doe = z2 - era * 146097)
    (h3 : Y = (doe - doe / 1460 + doe / 36524 - doe / 146096) / 365)
    (h4 : doy = doe - (365 * Y + Y / 4 - Y / 100))
    (h5 : mp = (5 * doy + 2) / 153) (h6 : d = doy - (153 * mp + 2) / 5 + 1)
    (h7 : m = if mp < 10 then mp + 3 else mp - 9)
    (h8 : y = if m ≤ 2 then Y + era * 400 + 1 else Y + era * 400) :
    civilFromDays z = (y, m, d) ∧ 1 ≤ m ∧ m ≤ 12 ∧ 1 ≤ d ∧
      d ≤ daysInMonth y m ∧ daysFromCivil y m d = z := by
  have hdoeB : 0 ≤ doe ∧ doe ≤ 146096 := by omega
  have hrange := yoe_inv_range doe Y hdoeB.1 hdoeB.2 h3
  rw [← h4] at hrange
  obtain ⟨hY1, hY2, hdoy1, hdoy2⟩ := hrange
  have hmpB : 0 ≤ mp ∧ mp ≤ 11 := by omega
  have hfirst : civilFromDays z = (y, m, d) := by
    subst h8 h7 h6 h5 h4 h3 h2 h1 h0
    simp only [civilFromDays]
  have hmB : (mp < 10 ∧ m = mp + 3) ∨ (10 ≤ mp ∧ m = mp - 9) := by
    rcases Decidable.em (mp < 10) with h | h
    · exact Or.inl ⟨h, by rw [h7, if_pos h]⟩
    · exact Or.inr ⟨by omega, by rw [h7, if_neg h]⟩
  have hyB : (m ≤ 2 ∧ y = Y + era * 400 + 1) ∨ (2 < m ∧ y = Y + era * 400) := by
    rcases Decidable.em (m ≤ 2) with h | h
    · exact Or.inl ⟨h, by rw [h8, if_pos h]⟩
    · exact Or.inr ⟨by omega, by rw [h8, if_neg h]⟩
  have hdim := daysInMonth_eq y m
  refine ⟨hfirst, by omega, by omega, by omega, by omega, ?_⟩
  have hmB2 : 1 ≤ m ∧ m ≤ 12 := by omega
  rcases hyB with ⟨hm2, hy⟩ | ⟨hm2, hy⟩
  · have : daysFromCivil y m d =
        (y - 1) / 400 * 146097 +
          ((y - 1 - (y - 1) / 400 * 400) * 365 + (y - 1 - (y - 1) / 400 * 400) / 4 -
            (y - 1 - (y - 1) / 400 * 400) / 100 +
              ((153 * ((m + 9) % 12) + 2) / 5 + d - 1)) - 719468 := by
      simp only [daysFromCivil, if_pos hm2]
    rw [this]
    have hyy : y - 1 = Y + era * 400 := by omega
    rw [hyy]
    have hq : (Y + era * 400) / 400 = era := by omega
    rw [hq]
    have hyoe : Y + era * 400 - era * 400 = Y := by ring
    rw [hyoe]
    have hmp9 : (m + 9) % 12 = mp := by omega
    rw [hmp9]
    omega
  · have : daysFromCivil y m d =
        y / 400 * 146097 +
          ((y - y / 400 * 400) * 365 + (y - y / 400 * 400) / 4 -
            (y - y / 400 * 400) / 100 +
              ((153 * ((m + 9) % 12) + 2) / 5 + d - 1)) - 719468 := by
      simp only [daysFromCivil, if_neg (by omega : ¬ m ≤ 2)]
    rw [this]
    rw [hy]
    have hq : (Y + era * 400) / 400 = era := by omega
    rw [hq]
    have hyoe : Y + era * 400 - era * 400 = Y := by ring
    rw [hyoe]
    have hmp9 : (m + 9) % 12 = mp := by omega
    rw [hmp9]
    omega

/-- Day-number construction is linear in the day argument. -/
theorem daysFromCivil_day (y m d e : Int) :
    daysFromCivil y m d - daysFromCivil y m e = d - e := by
  simp only [daysFromCivil]
  split_ifs <;> ring

/-- The day after the last day of a month is the first day of the next
month (rolling into January of the next year after December). -/
theorem daysFromCivil_succ (y m : Int) (h1 : 1 ≤ m) (h2 : m ≤ 12) :
    daysFromCivil y m (daysInMonth y m) + 1 =
      if m = 12 then daysFromCivil (y + 1) 1 1 else daysFromCivil y (m + 1) 1 := by
  rw [daysInMonth_eq]
  simp only [daysFromCivil]
  interval_cases m <;> split_ifs <;> omega

/-- Clean existential packaging of `civilFromDays_decomp`. -/
theorem civilFromDays_fields (z : Int) :
    ∃ y m d, civilFromDays z = (y, m, d) ∧ 1 ≤ m ∧ m ≤ 12 ∧ 1 ≤ d ∧
      d ≤ daysInMonth y m ∧ daysFromCivil y m d = z := by
  have H := civilFromDays_decomp z (z + 719468) _ _ _ _ _ _ _ _
    rfl rfl rfl rfl rfl rfl rfl rfl rfl
  exact ⟨_, _, _, H.1, H.2.1, H.2.2.1, H.2.2.2.1, H.2.2.2.2.1, H.2.2.2.2.2⟩

/-- Characterization of `localFields` at an arbitrary instant: the extracted
fields form a valid civil date and time-of-day that reconstruct the instant. -/
theorem localFields_spec (tz t : Int) :
    ∃ y m d msod, localFields tz t =
        ⟨y, m - 1, d, msod / 3600000, msod / 60000 % 60, msod / 1000 % 60, msod % 1000⟩ ∧
      0 ≤ msod ∧ msod < 86400000 ∧ 1 ≤ m ∧ m ≤ 12 ∧ 1 ≤ d ∧ d ≤ daysInMonth y m ∧
      t + tz = daysFromCivil y m d * 86400000 + msod := by
  obtain ⟨y, m, d, hc, hm1, hm2, hd1, hd2, hback⟩ := civilFromDays_fields ((t + tz) / 86400000)
  refine ⟨y, m, d, (t + tz) % 86400000, ?_, by omega, by omega, hm1, hm2, hd1, hd2, ?_⟩
  · simp only [localFields, hc]
  · rw [hback]
    omega

/-- Field extraction after explicit construction from a valid civil date and
a time-of-day. -/
theorem localFields_make (tz N msod y m d : Int)
    (hN : N = daysFromCivil y m d) (h1 : 0 ≤ msod) (h2 : msod < 86400000)
    (hm1 : 1 ≤ m) (hm2 : m ≤ 12) (hd1 : 1 ≤ d) (hd2 : d ≤ daysInMonth y m) :
    localFields tz (N * 86400000 + msod - tz) =
      ⟨y, m - 1, d, msod / 3600000, msod / 60000 % 60, msod / 1000 % 60, msod % 1000⟩ := by
  simp only [localFields]
  have hlt : N * 86400000 + msod - tz + tz = N * 86400000 + msod := by ring
  rw [hlt]
  have e1 : (N * 86400000 + msod) / 86400000 = N := by omega
  have e2 : (N * 86400000 + msod) % 86400000 = msod := by omega
  rw [e1, e2, hN, civil_roundtrip y m d hm1 hm2 hd1 hd2]

/-- Conversion of the boolean leap-year test to its arithmetic statement. -/
theorem isLeap_iff (y : Int) :
    isLeap y = true ↔ ((y % 4 = 0 ∧ y % 100 ≠ 0) ∨ y % 400 = 0) := by
  unfold isLeap
  simp [Bool.or_eq_true, Bool.and_eq_true, beq_iff_eq, bne_iff_ne]

/-- Token matching returns nothing when no key is a prefix of the input. -/
theorem tryTok_eq_none (keys : List String) (cs : List Char)
    (h : ∀ k ∈ keys, cs.take k.toList.length ≠ k.toList) :
    tryTok keys cs = none := by
  induction keys with
  | nil => rfl
  | cons k rest ih =>
    simp only [tryTok]
    rw [if_neg (h k (by simp))]
    exact ih (fun k2 hk2 => h k2 (by simp [hk2]))

/-- C1: the spec and the repository's own tests require
`parseCustom("12/05/2025 2:30 PM", "MM/DD/YYYY h:mm A")` to succeed with
hour 14 and minute 30, resolving the 12-hour tokens `h`/`hh` with the
meridiem tokens `A`/`a`.  The shipped `PARSE_TOKENS` table has no such
tokens, so `h` and `A` segment as literal characters and the composed regex
rejects the input: the call returns a failure for every timezone offset and
ambient year. -/
theorem c1_parseCustom_meridiem_code_bug (tz nowYear : Int) :
    parseCustom tz nowYear "12/05/2025 2:30 PM" "MM/DD/YYYY h:mm A" =
      ParseResult.failure
        "Input \"12/05/2025 2:30 PM\" does not match format \"MM/DD/YYYY h:mm A\"" := by
  rfl

/-- C3: for the fixed-duration units, `subtract` after `add` with the same
amount returns exactly the original instant. -/
theorem c3_fixed_unit_roundtrip (tz x n : Int) :
    subtract tz (add tz x n .millisecond) n .millisecond = x ∧
    subtract tz (add tz x n .second) n .second = x ∧
    subtract tz (add tz x n .minute) n .minute = x ∧
    subtract tz (add tz x n .hour) n .hour = x ∧
    subtract tz (add tz x n .day) n .day = x ∧
    subtract tz (add tz x n .week) n .week = x := by
  refine ⟨?_, ?_, ?_, ?_, ?_, ?_⟩ <;> simp only [subtract, add] <;> ring

/-- C6 (amended): outside literal mode, a pattern character that is neither
`[` nor `]` and at which no token of the table is an exact prefix match is
copied verbatim into the output.  (The claim's inclusion of `]` itself is
refuted by `c6_bracket_counterexample`: the brackets are consumed as
literal-mode toggles before token matching.) -/
theorem c6_no_token_verbatim (tz t : Int) (c : Char) (rest : List Char)
    (h1 : c ≠ '[') (h2 : c ≠ ']')
    (h3 : ∀ k ∈ formatTokenKeys, (c :: rest).take k.toList.length ≠ k.toList) :
    format tz t (String.mk (c :: rest)) = String.mk [c] ++ format tz t (String.mk rest) := by
  show formatGo tz t (rest.length + 1) false (c :: rest) =
    String.mk [c] ++ formatGo tz t rest.length false rest
  rw [formatGo]
  simp only [if_neg h1, if_neg h2, Bool.false_eq_true, if_false,
    tryTok_eq_none formatTokenKeys (c :: rest) h3]

/-- Closed instance of C6's amended statement at the separator `-`
followed by `MM`. -/
theorem c6_no_token_verbatim_witness :
    format 0 0 (String.mk ('-' :: "MM".toList)) =
      String.mk ['-'] ++ format 0 0 (String.mk "MM".toList) :=
  c6_no_token_verbatim 0 0 '-' "MM".toList (by decide) (by decide) (by decide)

/-- C6 counterexample: at the pattern `]` the character `]` is at a position
where no token matches and literal mode is off, yet it is dropped (the
scanner consumes it as a literal-mode toggle), so it is not copied
verbatim as the claim states. -/
theorem c6_bracket_counterexample :
    format 0 0 "]" = "" ∧ ("]" : String) ≠ "" := by
  exact ⟨rfl, by decide⟩

/-- C7: for every pair of instants exactly one of `equals`, `isBefore`,
`isAfter` is true. -/
theorem c7_comparison_trichotomy (a b : Int) :
    (equals a b = true ∧ isBefore a b = false ∧ isAfter a b = false) ∨
    (equals a b = false ∧ isBefore a b = true ∧ isAfter a b = false) ∨
    (equals a b = false ∧ isBefore a b = false ∧ isAfter a b = true) := by
  simp only [equals, isBefore, isAfter, beq_iff_eq, beq_eq_false_iff_ne, ne_eq,
    decide_eq_true_eq, decide_eq_false_iff_not, not_lt, gt_iff_lt]
  omega

/-- C8: `parseISO` never throws; non-string input and empty or
whitespace-only strings yield typed failures, any host parse producing an
invalid (NaN) timestamp yields a typed failure with a descriptive message,
and the three concrete inputs of the claim all fail. -/
theorem c8_parseISO_failures (tz : Int) :
    parseISO tz .other = ParseResult.failure "Input must be a string" ∧
    (∀ s : String, jsTrim s = "" →
      parseISO tz (.str s) = ParseResult.failure "Input string cannot be empty") ∧
    (∀ s : String, jsTrim s ≠ "" → hostParse tz s = none →
      parseISO tz (.str s) = ParseResult.failure ("Invalid ISO 8601 date string: " ++ s)) ∧
    parseISO tz (.str "") = ParseResult.failure "Input string cannot be empty" ∧
    parseISO tz (.str "not-a-date") =
      ParseResult.failure "Invalid ISO 8601 date string: not-a-date" ∧
    parseISO tz (.str "2025-13-01T00:00:00Z") =
      ParseResult.failure "Invalid ISO 8601 date string: 2025-13-01T00:00:00Z" := by
  refine ⟨rfl, ?_, ?_, rfl, rfl, rfl⟩
  · intro s hs
    simp [parseISO, hs]
  · intro s hs hh
    simp [parseISO, hs, hh]

/-- Closed instance of C8 at a whitespace-only string and an unparsable
string. -/
theorem c8_parseISO_failures_witness :
    parseISO 0 (.str " ") = ParseResult.failure "Input string cannot be empty" ∧
    parseISO 0 (.str "nope") = ParseResult.failure "Invalid ISO 8601 date string: nope" :=
  ⟨(c8_parseISO_failures 0).2.1 " " (by decide),
   (c8_parseISO_failures 0).2.2.1 "nope" (by decide) rfl⟩

/-- C9: numeric input always parses successfully: `parseTimestamp` has no
failure path, so `parse` on NaN or an infinity returns a success carrying
the invalid (NaN) instant, while an unparsable string returns a typed
failure. -/
theorem c9_parse_numeric_total (tz : Int) :
    (∀ n : JsNum, parse tz (.num n) = ParseResult.success (parseTimestamp n)) ∧
    parse tz (.num .nan) = ParseResult.success none ∧
    parse tz (.num .posInf) = ParseResult.success none ∧
    parse tz (.num .negInf) = ParseResult.success none ∧
    parse tz (.str "not-a-date") =
      ParseResult.failure "Unable to parse date string: not-a-date" := by
  exact ⟨fun n => rfl, rfl, rfl, rfl, rfl⟩

/-- C10 (amended): the constructor appends `T00:00:00` whenever the
*trimmed* input matches the date-only pattern, concatenating onto the
untrimmed input; only strings whose trimmed form does not match are passed
to the host parser unchanged.  For a date-only input this parses as local
midnight: at offset UTC+1 the constructor's instant for `2025-12-05` is one
hour before the UTC midnight that the raw host parse of the same string
yields.  (The claim's assertion that all other strings reach the host
unchanged is refuted by `c10_ctor_counterexample`.) -/
theorem c10_ctor_date_only (s : String) :
    (dateOnlyPattern (jsTrim s) = true → ctorArg s = s ++ "T00:00:00") ∧
    (dateOnlyPattern (jsTrim s) = false → ctorArg s = s) ∧
    (∀ tz : Int, wwFromString tz s = hostParse tz (ctorArg s)) ∧
    wwFromString 3600000 "2025-12-05" = some 1764889200000 ∧
    hostParse 3600000 "2025-12-05" = some 1764892800000 ∧
    (1764889200000 : Int) = 1764892800000 - 3600000 := by
  refine ⟨?_, ?_, fun tz => rfl, rfl, rfl, by norm_num⟩
  · intro h
    simp [ctorArg, h]
  · intro h
    simp [ctorArg, h]

/-- Closed instance of C10's amended statement at a matching and a
non-matching input. -/
theorem c10_ctor_date_only_witness :
    ctorArg "2025-12-05" = "2025-12-05" ++ "T00:00:00" ∧ ctorArg "xyz" = "xyz" :=
  ⟨(c10_ctor_date_only "2025-12-05").1 rfl, (c10_ctor_date_only "xyz").2.1 rfl⟩

/-- C10 counterexample: the input `" 2025-01-02"` is not exactly date-only
(it has leading whitespace), yet it is not passed to the host parser
unchanged: the constructor appends `T00:00:00` because the *trimmed* string
matches the pattern. -/
theorem c10_ctor_counterexample :
    ctorArg " 2025-01-02" = " 2025-01-02T00:00:00" ∧
    ctorArg " 2025-01-02" ≠ " 2025-01-02" := by
  exact ⟨rfl, by decide⟩

/-- C2 (amended): `add` with the year unit has no clamping step: when the
local date is February 29 and the target year is not a leap year, the
result normalizes to March 1 of the target year (same time of day), not to
February 28 as the claim states (refuted by
`c2_year_add_counterexample`). -/
theorem c2_year_add_feb29 (tz t n : Int)
    (hmonth : (localFields tz t).month0 = 1)
    (hday : (localFields tz t).day = 29)
    (hleap : isLeap ((localFields tz t).year + n) = false) :
    localFields tz (add tz t n .year) =
      ⟨(localFields tz t).year + n, 2, 1, (localFields tz t).hour,
        (localFields tz t).minute, (localFields tz t).second,
        (localFields tz t).millisecond⟩ := by
  obtain ⟨y, m, d, msod, hf, h1, h2, hm1, hm2, hd1, hd2, hrec⟩ := localFields_spec tz t
  have hYear : (localFields tz t).year = y := by rw [hf]
  have hMonth0 : (localFields tz t).month0 = m - 1 := by rw [hf]
  have hDay : (localFields tz t).day = d := by rw [hf]
  have hHour : (localFields tz t).hour = msod / 3600000 := by rw [hf]
  have hMin : (localFields tz t).minute = msod / 60000 % 60 := by rw [hf]
  have hSec : (localFields tz t).second = msod / 1000 % 60 := by rw [hf]
  have hMs : (localFields tz t).millisecond = msod % 1000 := by rw [hf]
  have hm : m = 2 := by omega
  have hd : d = 29 := by omega
  have hnl : ¬ (((y + n) % 4 = 0 ∧ (y + n) % 100 ≠ 0) ∨ (y + n) % 400 = 0) := by
    intro hcon
    rw [hYear] at hleap
    rw [(isLeap_iff (y + n)).mpr hcon] at hleap
    simp at hleap
  have hmod : (t + tz) % 86400000 = msod := by omega
  have hadd : add tz t n .year = daysFromCivil (y + n) 2 29 * 86400000 + msod - tz := by
    show jsSetFullYear tz t ((localFields tz t).year + n) = _
    simp only [jsSetFullYear, makeDay, hYear, hMonth0, hDay, hm, hd, hmod]
    norm_num
  have hsucc := daysFromCivil_succ (y + n) 2 (by omega) (by omega)
  have hdim28 : daysInMonth (y + n) 2 = 28 := by
    rw [daysInMonth_eq, if_pos rfl, if_neg hnl]
  rw [hdim28] at hsucc
  have hif : (if (2 : Int) = 12 then daysFromCivil (y + n + 1) 1 1
      else daysFromCivil (y + n) (2 + 1) 1) = daysFromCivil (y + n) 3 1 := by
    norm_num
  rw [hif] at hsucc
  have hlin := daysFromCivil_day (y + n) 2 29 28
  have hstep : daysFromCivil (y + n) 2 29 = daysFromCivil (y + n) 3 1 := by omega
  rw [hadd, hstep]
  have hdim31 : (1 : Int) ≤ daysInMonth (y + n) 3 := by
    rw [daysInMonth_eq]
    norm_num
  rw [localFields_make tz _ msod (y + n) 3 1 rfl h1 h2 (by omega) (by omega) (by omega) hdim31]
  rw [hYear, hHour, hMin, hSec, hMs]
  norm_num

/-- Closed instance of C2's amended statement at 2024-02-29T00:00:00 with
offset 0 and one year added. -/
theorem c2_year_add_feb29_witness :
    localFields 0 (add 0 1709164800000 1 .year) =
      ⟨(localFields 0 1709164800000).year + 1, 2, 1, (localFields 0 1709164800000).hour,
        (localFields 0 1709164800000).minute, (localFields 0 1709164800000).second,
        (localFields 0 1709164800000).millisecond⟩ :=
  c2_year_add_feb29 0 1709164800000 1 (by decide) (by decide) (by decide)

/-- C2 counterexample: 1709164800000 is 2024-02-29T00:00:00 (offset 0);
2025 is not a leap year; adding one year yields March 1, 2025, not the
February 28 the claim requires. -/
theorem c2_year_add_counterexample :
    (localFields 0 1709164800000).month0 = 1 ∧
    (localFields 0 1709164800000).day = 29 ∧
    isLeap 2025 = false ∧
    localFields 0 (add 0 1709164800000 1 .year) = ⟨2025, 2, 1, 0, 0, 0, 0⟩ ∧
    (localFields 0 (add 0 1709164800000 1 .year)).day ≠ 28 := by
  exact ⟨by decide, by decide, by decide, by decide, by decide⟩

/-- Normalization of a day-of-month overflowing by at most a few days: the
day number lands in the following month. -/
theorem daysFromCivil_overflow (y m d : Int) (h1 : 1 ≤ m) (h2 : m ≤ 12)
    (h3 : daysInMonth y m < d) (h4 : d ≤ 31) :
    daysFromCivil y m d =
      if m = 12 then daysFromCivil (y + 1) 1 (d - daysInMonth y m)
      else daysFromCivil y (m + 1) (d - daysInMonth y m) := by
  have hsucc := daysFromCivil_succ y m h1 h2
  have hlin1 := daysFromCivil_day y m d (daysInMonth y m)
  rcases Decidable.em (m = 12) with h | h
  · rw [if_pos h] at hsucc ⊢
    have hlin2 := daysFromCivil_day (y + 1) 1 (d - daysInMonth y m) 1
    omega
  · rw [if_neg h] at hsucc ⊢
    have hlin2 := daysFromCivil_day y (m + 1) (d - daysInMonth y m) 1
    omega

/-- Day zero of the following month is the last day of this month. -/
theorem daysFromCivil_day0 (y m : Int) (h1 : 1 ≤ m) (h2 : m ≤ 12) :
    (if m = 12 then daysFromCivil (y + 1) 1 0 else daysFromCivil y (m + 1) 0) =
      daysFromCivil y m (daysInMonth y m) := by
  have hsucc := daysFromCivil_succ y m h1 h2
  rcases Decidable.em (m = 12) with h | h
  · rw [if_pos h] at hsucc ⊢
    have hlin := daysFromCivil_day (y + 1) 1 0 1
    omega
  · rw [if_neg h] at hsucc ⊢
    have hlin := daysFromCivil_day y (m + 1) 0 1
    omega

/-- Bounds of the month length. -/
theorem daysInMonth_bounds (y m : Int) :
    28 ≤ daysInMonth y m ∧ daysInMonth y m ≤ 31 := by
  rw [daysInMonth_eq]
  split_ifs <;> omega

/-- C5: `add` with the month unit remembers the original day-of-month; the
target year/month are the calendar-normalized result of adding the amount to
the month field, the day is the original day clamped to the length of the
target month, and the time of day is unchanged.  In particular
`add("2025-01-31", 1, month)` formatted as `YYYY-MM-DD` is `"2025-02-28"`. -/
theorem c5_month_add_clamp :
    (∀ tz t n : Int,
      localFields tz (add tz t n .month) =
        ⟨(localFields tz t).year + ((localFields tz t).month0 + n) / 12,
         ((localFields tz t).month0 + n) % 12,
         min (localFields tz t).day
           (daysInMonth ((localFields tz t).year + ((localFields tz t).month0 + n) / 12)
             (((localFields tz t).month0 + n) % 12 + 1)),
         (localFields tz t).hour, (localFields tz t).minute, (localFields tz t).second,
         (localFields tz t).millisecond⟩) ∧
    wwFromString 0 "2025-01-31" = some 1738281600000 ∧
    format 0 (add 0 1738281600000 1 .month) "YYYY-MM-DD" = "2025-02-28" := by
  refine ⟨?_, by decide, by decide⟩
  intro tz t n
  obtain ⟨y, m, d, msod, hf, h1, h2, hm1, hm2, hd1, hd2, hrec⟩ := localFields_spec tz t
  have hYear : (localFields tz t).year = y := by rw [hf]
  have hMonth0 : (localFields tz t).month0 = m - 1 := by rw [hf]
  have hDay : (localFields tz t).day = d := by rw [hf]
  have hHour : (localFields tz t).hour = msod / 3600000 := by rw [hf]
  have hMin : (localFields tz t).minute = msod / 60000 % 60 := by rw [hf]
  have hSec : (localFields tz t).second = msod / 1000 % 60 := by rw [hf]
  have hMs : (localFields tz t).millisecond = msod % 1000 := by rw [hf]
  have hmod : (t + tz) % 86400000 = msod := by omega
  have htm1 : 1 ≤ (m - 1 + n) % 12 + 1 := by omega
  have htm2 : (m - 1 + n) % 12 + 1 ≤ 12 := by omega
  have hr1 : jsSetMonth tz t ((localFields tz t).month0 + n) =
      daysFromCivil (y + (m - 1 + n) / 12) ((m - 1 + n) % 12 + 1) d * 86400000 + msod - tz := by
    simp only [jsSetMonth, makeDay, hYear, hMonth0, hDay, hmod]
  rcases le_or_lt d (daysInMonth (y + (m - 1 + n) / 12) ((m - 1 + n) % 12 + 1)) with hcase | hcase
  · have hfr1 := localFields_make tz _ msod (y + (m - 1 + n) / 12) ((m - 1 + n) % 12 + 1) d
      rfl h1 h2 htm1 htm2 hd1 hcase
    have hcond : ¬ ((localFields tz (jsSetMonth tz t ((localFields tz t).month0 + n))).day ≠
        (localFields tz t).day) := by
      rw [hr1, hfr1, hDay]
      exact fun h => h rfl
    simp only [add]
    rw [if_neg hcond, hr1, hfr1]
    rw [hYear, hMonth0, hDay, hHour, hMin, hSec, hMs, min_eq_left hcase]
    norm_num
  · have hd31 : d ≤ 31 := le_trans hd2 (daysInMonth_bounds y m).2
    have hsucc := daysFromCivil_succ (y + (m - 1 + n) / 12) ((m - 1 + n) % 12 + 1) htm1 htm2
    have hlin1 := daysFromCivil_day (y + (m - 1 + n) / 12) ((m - 1 + n) % 12 + 1) d
      (daysInMonth (y + (m - 1 + n) / 12) ((m - 1 + n) % 12 + 1))
    rcases Decidable.em ((m - 1 + n) % 12 + 1 = 12) with h12 | h12
    · rw [if_pos h12] at hsucc
      have hnum : daysFromCivil (y + (m - 1 + n) / 12) ((m - 1 + n) % 12 + 1) d =
          daysFromCivil (y + (m - 1 + n) / 12 + 1) 1
            (d - daysInMonth (y + (m - 1 + n) / 12) ((m - 1 + n) % 12 + 1)) := by
        have h := daysFromCivil_overflow (y + (m - 1 + n) / 12) ((m - 1 + n) % 12 + 1) d
          htm1 htm2 hcase hd31
        rw [if_pos h12] at h
        exact h
      have hdB := daysInMonth_bounds (y + (m - 1 + n) / 12 + 1) 1
      have hfr1 : localFields tz (jsSetMonth tz t ((localFields tz t).month0 + n)) =
          ⟨y + (m - 1 + n) / 12 + 1, 1 - 1,
            d - daysInMonth (y + (m - 1 + n) / 12) ((m - 1 + n) % 12 + 1),
            msod / 3600000, msod / 60000 % 60, msod / 1000 % 60, msod % 1000⟩ := by
        rw [hr1, hnum]
        exact localFields_make tz _ msod _ 1 _ rfl h1 h2 (by omega) (by omega)
          (by have := daysInMonth_bounds (y + (m - 1 + n) / 12) ((m - 1 + n) % 12 + 1); omega)
          (by have hk := daysInMonth_bounds (y + (m - 1 + n) / 12) ((m - 1 + n) % 12 + 1)
              omega)
      have hcond : (localFields tz (jsSetMonth tz t ((localFields tz t).month0 + n))).day ≠
          (localFields tz t).day := by
        rw [hfr1, hDay]
        show d - daysInMonth (y + (m - 1 + n) / 12) ((m - 1 + n) % 12 + 1) ≠ d
        have := daysInMonth_bounds (y + (m - 1 + n) / 12) ((m - 1 + n) % 12 + 1)
        omega
      simp only [add]
      rw [if_pos hcond]
      have hback : daysFromCivil (y + (m - 1 + n) / 12 + 1) 1 0 =
          daysFromCivil (y + (m - 1 + n) / 12) ((m - 1 + n) % 12 + 1)
            (daysInMonth (y + (m - 1 + n) / 12) ((m - 1 + n) % 12 + 1)) := by
        have h := daysFromCivil_day0 (y + (m - 1 + n) / 12) ((m - 1 + n) % 12 + 1) htm1 htm2
        rw [if_pos h12] at h
        exact h
      have hsd : jsSetDate tz (jsSetMonth tz t ((localFields tz t).month0 + n)) 0 =
          daysFromCivil (y + (m - 1 + n) / 12) ((m - 1 + n) % 12 + 1)
            (daysInMonth (y + (m - 1 + n) / 12) ((m - 1 + n) % 12 + 1)) * 86400000 +
            msod - tz := by
        simp only [jsSetDate, hfr1, makeDay]
        rw [hr1]
        have hmod2 : (daysFromCivil (y + (m - 1 + n) / 12) ((m - 1 + n) % 12 + 1) d *
            86400000 + msod - tz + tz) % 86400000 = msod := by
          have : daysFromCivil (y + (m - 1 + n) / 12) ((m - 1 + n) % 12 + 1) d * 86400000 +
              msod - tz + tz = daysFromCivil (y + (m - 1 + n) / 12) ((m - 1 + n) % 12 + 1) d *
              86400000 + msod := by ring
          rw [this]
          omega
        rw [hmod2]
        norm_num
        rw [hback]
      rw [hsd]
      have hdimpos : (1 : Int) ≤ daysInMonth (y + (m - 1 + n) / 12) ((m - 1 + n) % 12 + 1) := by
        have := daysInMonth_bounds (y + (m - 1 + n) / 12) ((m - 1 + n) % 12 + 1)
        omega
      rw [localFields_make tz _ msod (y + (m - 1 + n) / 12) ((m - 1 + n) % 12 + 1)
        (daysInMonth (y + (m - 1 + n) / 12) ((m - 1 + n) % 12 + 1)) rfl h1 h2 htm1 htm2
        hdimpos (le_refl _)]
      rw [hYear, hMonth0, hDay, hHour, hMin, hSec, hMs, min_eq_right (le_of_lt hcase)]
      norm_num
    · rw [if_neg h12] at hsucc
      have hnum : daysFromCivil (y + (m - 1 + n) / 12) ((m - 1 + n) % 12 + 1) d =
          daysFromCivil (y + (m - 1 + n) / 12) ((m - 1 + n) % 12 + 1 + 1)
            (d - daysInMonth (y + (m - 1 + n) / 12) ((m - 1 + n) % 12 + 1)) := by
        have h := daysFromCivil_overflow (y + (m - 1 + n) / 12) ((m - 1 + n) % 12 + 1) d
          htm1 htm2 hcase hd31
        rw [if_neg h12] at h
        exact h
      have hfr1 : localFields tz (jsSetMonth tz t ((localFields tz t).month0 + n)) =
          ⟨y + (m - 1 + n) / 12, (m - 1 + n) % 12 + 1 + 1 - 1,
            d - daysInMonth (y + (m - 1 + n) / 12) ((m - 1 + n) % 12 + 1),
            msod / 3600000, msod / 60000 % 60, msod / 1000 % 60, msod % 1000⟩ := by
        rw [hr1, hnum]
        exact localFields_make tz _ msod _ _ _ rfl h1 h2 (by omega) (by omega)
          (by have := daysInMonth_bounds (y + (m - 1 + n) / 12) ((m - 1 + n) % 12 + 1); omega)
          (by have hk := daysInMonth_bounds (y + (m - 1 + n) / 12) ((m - 1 + n) % 12 + 1)
              have hp := daysInMonth_bounds (y + (m - 1 + n) / 12) ((m - 1 + n) % 12 + 1 + 1)
              omega)
      have hcond : (localFields tz (jsSetMonth tz t ((localFields tz t).month0 + n))).day ≠
          (localFields tz t).day := by
        rw [hfr1, hDay]
        show d - daysInMonth (y + (m - 1 + n) / 12) ((m - 1 + n) % 12 + 1) ≠ d
        have := daysInMonth_bounds (y + (m - 1 + n) / 12) ((m - 1 + n) % 12 + 1)
        omega
      simp only [add]
      rw [if_pos hcond]
      have hback : daysFromCivil (y + (m - 1 + n) / 12) ((m - 1 + n) % 12 + 1 + 1 - 1 + 1) 0 =
          daysFromCivil (y + (m - 1 + n) / 12) ((m - 1 + n) % 12 + 1)
            (daysInMonth (y + (m - 1 + n) / 12) ((m - 1 + n) % 12 + 1)) := by
        have h := daysFromCivil_day0 (y + (m - 1 + n) / 12) ((m - 1 + n) % 12 + 1) htm1 htm2
        rw [if_neg h12] at h
        have he : (m - 1 + n) % 12 + 1 + 1 - 1 + 1 = (m - 1 + n) % 12 + 1 + 1 := by ring
        rw [he]
        exact h
      have hsd : jsSetDate tz (jsSetMonth tz t ((localFields tz t).month0 + n)) 0 =
          daysFromCivil (y + (m - 1 + n) / 12) ((m - 1 + n) % 12 + 1)
            (daysInMonth (y + (m - 1 + n) / 12) ((m - 1 + n) % 12 + 1)) * 86400000 +
            msod - tz := by
        simp only [jsSetDate, hfr1, makeDay]
        rw [hr1]
        have hmod2 : (daysFromCivil (y + (m - 1 + n) / 12) ((m - 1 + n) % 12 + 1) d *
            86400000 + msod - tz + tz) % 86400000 = msod := by
          have : daysFromCivil (y + (m - 1 + n) / 12) ((m - 1 + n) % 12 + 1) d * 86400000 +
              msod - tz + tz = daysFromCivil (y + (m - 1 + n) / 12) ((m - 1 + n) % 12 + 1) d *
              86400000 + msod := by ring
          rw [this]
          omega
        rw [hmod2]
        have hdiv : ((m - 1 + n) % 12 + 1 + 1 - 1) / 12 = 0 := by omega
        have hmodm : ((m - 1 + n) % 12 + 1 + 1 - 1) % 12 = (m - 1 + n) % 12 + 1 + 1 - 1 := by
          omega
        rw [hdiv, hmodm, add_zero, hback]
      rw [hsd]
      have hdimpos : (1 : Int) ≤ daysInMonth (y + (m - 1 + n) / 12) ((m - 1 + n) % 12 + 1) := by
        have := daysInMonth_bounds (y + (m - 1 + n) / 12) ((m - 1 + n) % 12 + 1)
        omega
      rw [localFields_make tz _ msod (y + (m - 1 + n) / 12) ((m - 1 + n) % 12 + 1)
        (daysInMonth (y + (m - 1 + n) / 12) ((m - 1 + n) % 12 + 1)) rfl h1 h2 htm1 htm2
        hdimpos (le_refl _)]
      rw [hYear, hMonth0, hDay, hHour, hMin, hSec, hMs, min_eq_right (le_of_lt hcase)]
      norm_num

/-- Data of a `String.mk`. -/
theorem toList_mk (l : List Char) : (String.mk l).toList = l :=
  rfl

/-- Character data of a string concatenation. -/
theorem toList_append (s t : String) : (s ++ t).toList = s.toList ++ t.toList :=
  rfl

/-- The digit fuel is irrelevant once it exceeds the number. -/
theorem natDecGo_fuel (n : Nat) : ∀ f1 f2 : Nat, n < f1 → n < f2 →
    natDecGo f1 n = natDecGo f2 n := by
  induction n using Nat.strong_induction_on with
  | _ n ih =>
    intro f1 f2 h1 h2
    obtain ⟨g1, rfl⟩ : ∃ g, f1 = g + 1 := ⟨f1 - 1, by omega⟩
    obtain ⟨g2, rfl⟩ : ∃ g, f2 = g + 1 := ⟨f2 - 1, by omega⟩
    simp only [natDecGo]
    split_ifs with h
    · rfl
    · rw [ih (n / 10) (by omega) g1 g2 (by omega) (by omega)]

/-- One-digit numbers print as a single digit character. -/
theorem natDec_small (n : Nat) (h : n < 10) :
    natDec n = String.mk [Char.ofNat (48 + n)] := by
  show String.mk (natDecGo (n + 1) n) = _
  simp only [natDecGo]
  rw [if_pos h]

/-- Peeling the last digit of a number with at least two digits. -/
theorem natDec_step (n : Nat) (h : 10 ≤ n) :
    natDec n = natDec (n / 10) ++ String.mk [Char.ofNat (48 + n % 10)] := by
  show String.mk (natDecGo (n + 1) n) = _
  simp only [natDecGo]
  rw [if_neg (by omega)]
  rw [natDecGo_fuel (n / 10) n (n / 10 + 1) (by omega) (by omega)]
  rfl

/-- The character of a decimal digit is an ASCII digit with the expected
code point. -/
theorem digitChar_spec (d : Nat) (h : d < 10) :
    isAsciiDigit (Char.ofNat (48 + d)) = true ∧
      ((Char.ofNat (48 + d)).toNat : Int) - 48 = (d : Int) := by
  interval_cases d <;> exact ⟨rfl, rfl⟩

/-- Value of a two-character digit string. -/
theorem digitsVal_two (a b : Char) :
    digitsVal (String.mk [a, b]) =
      (((a.toNat : Int) - 48)) * 10 + ((b.toNat : Int) - 48) := by
  simp [digitsVal]

/-- Value of a four-character digit string. -/
theorem digitsVal_four (a b c d : Char) :
    digitsVal (String.mk [a, b, c, d]) =
      (((a.toNat : Int) - 48)) * 1000 + (((b.toNat : Int) - 48)) * 100 +
        (((c.toNat : Int) - 48)) * 10 + ((d.toNat : Int) - 48) := by
  simp [digitsVal]
  ring

/-- Shape of the zero-padded two-digit rendering of a value in 0..99: two
ASCII digits whose numeric value is the value again. -/
theorem padZero_two (v : Int) (h1 : 0 ≤ v) (h2 : v ≤ 99) :
    ∃ a b : Char, padZero v 2 = String.mk [a, b] ∧ isAsciiDigit a = true ∧
      isAsciiDigit b = true ∧ digitsVal (String.mk [a, b]) = v := by
  have hv : v = (v.toNat : Int) := by omega
  have hjs : jsIntToString v = natDec v.toNat := by
    rw [jsIntToString, if_neg (by omega)]
  rcases Nat.lt_or_ge v.toNat 10 with h | h
  · refine ⟨'0', Char.ofNat (48 + v.toNat), ?_, rfl, (digitChar_spec _ h).1, ?_⟩
    · rw [padZero, hjs, natDec_small _ h]
      rfl
    · rw [digitsVal_two]
      have hsp := (digitChar_spec v.toNat h).2
      have h0 : (('0'.toNat : Nat) : Int) = 48 := rfl
      omega
  · have h99 : v.toNat / 10 < 10 := by omega
    refine ⟨Char.ofNat (48 + v.toNat / 10), Char.ofNat (48 + v.toNat % 10), ?_,
      (digitChar_spec _ h99).1, (digitChar_spec _ (by omega)).1, ?_⟩
    · rw [padZero, hjs, natDec_step _ h, natDec_small _ h99]
      rfl
    · rw [digitsVal_two]
      have ha := (digitChar_spec (v.toNat / 10) h99).2
      have hb := (digitChar_spec (v.toNat % 10) (by omega)).2
      omega

/-- Shape of the rendering of a four-digit year: four ASCII digits whose
numeric value is the year again. -/
theorem jsIntToString_four (v : Int) (h1 : 1000 ≤ v) (h2 : v ≤ 9999) :
    ∃ a b c d : Char, jsIntToString v = String.mk [a, b, c, d] ∧
      isAsciiDigit a = true ∧ isAsciiDigit b = true ∧ isAsciiDigit c = true ∧
      isAsciiDigit d = true ∧ digitsVal (String.mk [a, b, c, d]) = v := by
  have hjs : jsIntToString v = natDec v.toNat := by
    rw [jsIntToString, if_neg (by omega)]
  have hu1 : 1000 ≤ v.toNat := by omega
  have hu2 : v.toNat ≤ 9999 := by omega
  have hd1 : v.toNat / 1000 < 10 := by omega
  refine ⟨Char.ofNat (48 + v.toNat / 10 / 10 / 10), Char.ofNat (48 + v.toNat / 10 / 10 % 10),
    Char.ofNat (48 + v.toNat / 10 % 10), Char.ofNat (48 + v.toNat % 10), ?_,
    (digitChar_spec _ (by omega)).1, (digitChar_spec _ (by omega)).1,
    (digitChar_spec _ (by omega)).1, (digitChar_spec _ (by omega)).1, ?_⟩
  · rw [hjs, natDec_step _ (by omega), natDec_step _ (by omega), natDec_step _ (by omega),
      natDec_small _ (by omega)]
    rfl
  · rw [digitsVal_four]
    have ha := (digitChar_spec (v.toNat / 10 / 10 / 10) (by omega)).2
    have hb := (digitChar_spec (v.toNat / 10 / 10 % 10) (by omega)).2
    have hc := (digitChar_spec (v.toNat / 10 % 10) (by omega)).2
    have hd := (digitChar_spec (v.toNat % 10) (by omega)).2
    omega

/-- The separator predicate excludes every token character, the brackets,
and the star. -/
theorem sepChar_spec (c : Char) (h : sepChar c = true) :
    c ≠ 'Y' ∧ c ≠ 'M' ∧ c ≠ 'D' ∧ c ≠ 'H' ∧ c ≠ 'm' ∧ c ≠ 's' ∧ c ≠ 'S' ∧
      c ≠ 'd' ∧ c ≠ '[' ∧ c ≠ ']' ∧ c ≠ '*' := by
  simp only [sepChar, Bool.not_eq_true', Bool.or_eq_false_iff, beq_eq_false_iff_ne, ne_eq] at h
  tauto

/-- A `take` from a cons list never equals a list with a different head. -/
theorem take_cons_ne (c : Char) (rest ks : List Char) (k0 : Char) (n : Nat)
    (hne : c ≠ k0) : (c :: rest).take n ≠ k0 :: ks := by
  cases n with
  | zero => simp
  | succ n => simp [List.take, hne]

/-- The last element of a nonempty constant list. -/
theorem getLast?_all_eq {α : Type} (l : List α) (v : α) (h1 : l ≠ [])
    (h2 : ∀ a ∈ l, a = v) : l.getLast? = some v := by
  induction l with
  | nil => exact absurd rfl h1
  | cons a rest ih =>
    cases rest with
    | nil => simp [h2 a (by simp)]
    | cons b rest2 =>
      rw [List.getLast?_cons_cons]
      exact ih (by simp) (fun x hx => h2 x (by simp [hx]))

/-- An element that does not satisfy the predicate survives `dropWhile`. -/
theorem mem_dropWhile_of_not {α : Type} (p : α → Bool) (l : List α) (a : α)
    (ha : a ∈ l) (hp : p a = false) : a ∈ l.dropWhile p := by
  induction l with
  | nil => simp at ha
  | cons x rest ih =>
    rw [List.dropWhile]
    rcases Decidable.em (p x = true) with h | h
    · rw [h]
      rcases List.mem_cons.mp ha with rfl | hmem
      · rw [hp] at h
        simp at h
      · exact ih hmem
    · simp only [Bool.not_eq_true] at h
      rw [h]
      exact ha

/-- A string containing a non-whitespace character does not trim to the
empty string. -/
theorem jsTrim_ne_empty (s : String) (c : Char) (hc : c ∈ s.toList)
    (hw : isJsWhitespace c = false) : ¬ jsTrim s = "" := by
  intro h
  have h1 : c ∈ (s.toList.dropWhile isJsWhitespace) := mem_dropWhile_of_not _ _ _ hc hw
  have h2 : c ∈ (s.toList.dropWhile isJsWhitespace).reverse := List.mem_reverse.mpr h1
  have h3 : c ∈ ((s.toList.dropWhile isJsWhitespace).reverse.dropWhile isJsWhitespace) :=
    mem_dropWhile_of_not _ _ _ h2 hw
  have h4 : c ∈ ((s.toList.dropWhile isJsWhitespace).reverse.dropWhile isJsWhitespace).reverse :=
    List.mem_reverse.mpr h3
  rw [jsTrim] at h
  have : ((s.toList.dropWhile isJsWhitespace).reverse.dropWhile isJsWhitespace).reverse = [] := by
    have := congrArg String.toList h
    simpa using this
  rw [this] at h4
  simp at h4

/-- Character lists of the token key strings. -/
theorem toListYYYY : "YYYY".toList = ['Y', 'Y', 'Y', 'Y'] := rfl

theorem toListMMMM : "MMMM".toList = ['M', 'M', 'M', 'M'] := rfl

theorem toListdddd : "dddd".toList = ['d', 'd', 'd', 'd'] := rfl

theorem toListMMM : "MMM".toList = ['M', 'M', 'M'] := rfl

theorem toListddd : "ddd".toList = ['d', 'd', 'd'] := rfl

theorem toListSSS : "SSS".toList = ['S', 'S', 'S'] := rfl

theorem toListYY : "YY".toList = ['Y', 'Y'] := rfl

theorem toListMM : "MM".toList = ['M', 'M'] := rfl

theorem toListDD : "DD".toList = ['D', 'D'] := rfl

theorem toListHH : "HH".toList = ['H', 'H'] := rfl

theorem toListmm : "mm".toList = ['m', 'm'] := rfl

theorem toListss : "ss".toList = ['s', 's'] := rfl

theorem toListM : "M".toList = ['M'] := rfl

theorem toListD : "D".toList = ['D'] := rfl

theorem toListH : "H".toList = ['H'] := rfl

theorem toListm : "m".toList = ['m'] := rfl

theorem toLists : "s".toList = ['s'] := rfl

/-- Shape of a rendered C4 field: as many ASCII digits as the token is long,
an their numeric value is the field value. -/
theorem fieldStr_spec (tz x : Int) (t : PatTok) (hb : fieldsBounded tz x) :
    ∃ l : List Char, fieldStr tz x t = String.mk l ∧
      l.length = (patTokStr t).toList.length ∧ l.all isAsciiDigit = true ∧
      digitsVal (String.mk l) = fieldValOf tz x t := by
  obtain ⟨h1, h2, h3, h4, h5, h6, h7, h8, h9, h10, h11, h12⟩ := hb
  cases t
  · obtain ⟨a, b, c, d, he, ha, hbd, hc, hd, hv⟩ := jsIntToString_four _ h1 h2
    exact ⟨[a, b, c, d], he, rfl, by simp [ha, hbd, hc, hd], hv⟩
  · obtain ⟨a, b, he, ha, hbd, hv⟩ :=
      padZero_two ((localFields tz x).month0 + 1) (by omega) (by omega)
    exact ⟨[a, b], he, rfl, by simp [ha, hbd], hv⟩
  · obtain ⟨a, b, he, ha, hbd, hv⟩ :=
      padZero_two (localFields tz x).day (by omega) (by omega)
    exact ⟨[a, b], he, rfl, by simp [ha, hbd], hv⟩
  · obtain ⟨a, b, he, ha, hbd, hv⟩ :=
      padZero_two (localFields tz x).hour (by omega) (by omega)
    exact ⟨[a, b], he, rfl, by simp [ha, hbd], hv⟩
  · obtain ⟨a, b, he, ha, hbd, hv⟩ :=
      padZero_two (localFields tz x).minute (by omega) (by omega)
    exact ⟨[a, b], he, rfl, by simp [ha, hbd], hv⟩
  · obtain ⟨a, b, he, ha, hbd, hv⟩ :=
      padZero_two (localFields tz x).second (by omega) (by omega)
    exact ⟨[a, b], he, rfl, by simp [ha, hbd], hv⟩

/-- No format token starts at a separator character. -/
theorem tryTok_fmt_sep (c : Char) (rest : List Char) (hc : sepChar c = true) :
    tryTok formatTokenKeys (c :: rest) = none := by
  obtain ⟨hY, hM, hD, hH, hm, hs, hS, hd, _, _, _⟩ := sepChar_spec c hc
  apply tryTok_eq_none
  intro k hk
  simp only [formatTokenKeys, List.mem_cons, List.not_mem_nil, or_false] at hk
  rcases hk with rfl | rfl | rfl | rfl | rfl | rfl | rfl | rfl | rfl | rfl | rfl |
    rfl | rfl | rfl | rfl | rfl | rfl <;>
    simp only [toListYYYY, toListMMMM, toListdddd, toListMMM, toListddd, toListSSS,
      toListYY, toListMM, toListDD, toListHH, toListmm, toListss, toListM, toListD,
      toListH, toListm, toLists, List.length] <;>
    first
      | exact take_cons_ne _ _ _ _ _ hY
      | exact take_cons_ne _ _ _ _ _ hM
      | exact take_cons_ne _ _ _ _ _ hD
      | exact take_cons_ne _ _ _ _ _ hH
      | exact take_cons_ne _ _ _ _ _ hm
      | exact take_cons_ne _ _ _ _ _ hs
      | exact take_cons_ne _ _ _ _ _ hS
      | exact take_cons_ne _ _ _ _ _ hd

/-- No parse token starts at a separator character. -/
theorem tryTok_parse_sep (c : Char) (rest : List Char) (hc : sepChar c = true) :
    tryTok parseTokenKeys (c :: rest) = none := by
  obtain ⟨hY, hM, hD, hH, hm, hs, hS, hd, _, _, _⟩ := sepChar_spec c hc
  apply tryTok_eq_none
  intro k hk
  simp only [parseTokenKeys, List.mem_cons, List.not_mem_nil, or_false] at hk
  rcases hk with rfl | rfl | rfl | rfl | rfl | rfl | rfl | rfl | rfl | rfl | rfl |
    rfl | rfl | rfl | rfl <;>
    simp only [toListYYYY, toListMMMM, toListMMM, toListSSS,
      toListYY, toListMM, toListDD, toListHH, toListmm, toListss, toListM, toListD,
      toListH, toListm, toLists, List.length] <;>
    first
      | exact take_cons_ne _ _ _ _ _ hY
      | exact take_cons_ne _ _ _ _ _ hM
      | exact take_cons_ne _ _ _ _ _ hD
      | exact take_cons_ne _ _ _ _ _ hH
      | exact take_cons_ne _ _ _ _ _ hm
      | exact take_cons_ne _ _ _ _ _ hs
      | exact take_cons_ne _ _ _ _ _ hS
      | exact take_cons_ne _ _ _ _ _ hd

/-- A C4 token at the head of the remaining pattern, followed by nothing or
by a separator, is matched by the format scanner as itself. -/
theorem tryTok_fmt_tok (t : PatTok) (rest : List Char)
    (hf : rest = [] ∨ ∃ c cs, rest = c :: cs ∧ sepChar c = true) :
    tryTok formatTokenKeys ((patTokStr t).toList ++ rest) =
      some (patTokStr t, (patTokStr t).toList.length) := by
  rcases hf with rfl | ⟨c, cs, rfl, hc⟩
  · cases t <;> rfl
  · obtain ⟨hY, hM, hD, hH, hm, hs, hS, hd, _, _, _⟩ := sepChar_spec c hc
    cases t <;>
      simp [tryTok, formatTokenKeys, patTokStr, toListYYYY, toListMMMM, toListdddd,
        toListMMM, toListddd, toListSSS, toListYY, toListMM, toListDD, toListHH,
        toListmm, toListss, toListM, toListD, toListH, toListm, toLists,
        List.take, hY, hM, hD, hH, hm, hs, hS, hd]

/-- A C4 token at the head of the remaining pattern, followed by nothing or
by a separator, is matched by the parser's segmenter as itself. -/
theorem tryTok_parse_tok (t : PatTok) (rest : List Char)
    (hf : rest = [] ∨ ∃ c cs, rest = c :: cs ∧ sepChar c = true) :
    tryTok parseTokenKeys ((patTokStr t).toList ++ rest) =
      some (patTokStr t, (patTokStr t).toList.length) := by
  rcases hf with rfl | ⟨c, cs, rfl, hc⟩
  · cases t <;> rfl
  · obtain ⟨hY, hM, hD, hH, hm, hs, hS, hd, _, _, _⟩ := sepChar_spec c hc
    cases t <;>
      simp [tryTok, parseTokenKeys, patTokStr, toListYYYY, toListMMMM,
        toListMMM, toListSSS, toListYY, toListMM, toListDD, toListHH,
        toListmm, toListss, toListM, toListD, toListH, toListm, toLists,
        List.take, hY, hM, hD, hH, hm, hs, hS, hd]

/-- A well-formed pattern that does not start with a token renders to nothing
or to a separator character first. -/
theorem headNotTok_render (items : List PatItem) (hwf : wfItems items)
    (hh : headNotTok items) :
    renderPat items = [] ∨ ∃ c cs, renderPat items = c :: cs ∧ sepChar c = true := by
  cases items with
  | nil => exact Or.inl rfl
  | cons it rest =>
    cases it with
    | ptok t => exact hh.elim
    | psep c => exact Or.inr ⟨c, renderPat rest, rfl, hwf.1⟩

/-- A pattern renders to at least one character per item. -/
theorem renderPat_length (items : List PatItem) :
    items.length ≤ (renderPat items).length := by
  induction items with
  | nil => simp [renderPat]
  | cons it rest ih =>
    have hr : renderPat (it :: rest) = renderItem it ++ renderPat rest := rfl
    rw [hr]
    have h1 : 1 ≤ (renderItem it).length := by
      cases it with
      | ptok t => cases t <;> decide
      | psep c => simp [renderItem]
    simp only [List.length_append, List.length_cons]
    omega

/-- The format scanner on a rendered well-formed pattern produces exactly the
concatenation of field strings and separator characters. -/
theorem formatGo_render (tz x : Int) (items : List PatItem) :
    ∀ f : Nat, wfItems items → (renderPat items).length ≤ f →
      formatGo tz x f false (renderPat items) = renderOut tz x items := by
  induction items with
  | nil =>
    intro f _ _
    cases f <;> rfl
  | cons it rest ih =>
    intro f hwf hfuel
    cases it with
    | psep c =>
      obtain ⟨hc, hwr⟩ := hwf
      obtain ⟨hY, hM, hD, hH, hm, hs, hS, hd, hlb, hrb, hst⟩ := sepChar_spec c hc
      have hr2 : renderPat (PatItem.psep c :: rest) = c :: renderPat rest := rfl
      rw [hr2] at hfuel ⊢
      obtain ⟨g, rfl⟩ : ∃ g, f = g + 1 := ⟨f - 1, by simp at hfuel; omega⟩
      have hih := ih g hwr (by simp at hfuel; omega)
      have htt := tryTok_fmt_sep c (renderPat rest) hc
      simp only [formatGo]
      rw [if_neg hlb, if_neg hrb, htt]
      show String.mk [c] ++ formatGo tz x g false (renderPat rest) =
        renderOut tz x (PatItem.psep c :: rest)
      rw [hih]
      rfl
    | ptok t =>
      obtain ⟨hh, hwr⟩ := hwf
      have hfol := headNotTok_render rest hwr hh
      cases t with
      | Y4 =>
        have hr2 : renderPat (PatItem.ptok PatTok.Y4 :: rest) =
            'Y' :: 'Y' :: 'Y' :: 'Y' :: renderPat rest := rfl
        rw [hr2] at hfuel ⊢
        obtain ⟨g, rfl⟩ : ∃ g, f = g + 1 := ⟨f - 1, by simp at hfuel; omega⟩
        have hih := ih g hwr (by simp at hfuel; omega)
        have htt : tryTok formatTokenKeys ('Y' :: 'Y' :: 'Y' :: 'Y' :: renderPat rest) =
            some ("YYYY", 4) := tryTok_fmt_tok PatTok.Y4 (renderPat rest) hfol
        simp only [formatGo]
        rw [if_neg (show ¬('Y' = '[') by decide), if_neg (show ¬('Y' = ']') by decide), htt]
        show fieldStr tz x PatTok.Y4 ++ formatGo tz x g false (renderPat rest) =
          renderOut tz x (PatItem.ptok PatTok.Y4 :: rest)
        rw [hih]
        rfl
      | Mo2 =>
        have hr2 : renderPat (PatItem.ptok PatTok.Mo2 :: rest) =
            'M' :: 'M' :: renderPat rest := rfl
        rw [hr2] at hfuel ⊢
        obtain ⟨g, rfl⟩ : ∃ g, f = g + 1 := ⟨f - 1, by simp at hfuel; omega⟩
        have hih := ih g hwr (by simp at hfuel; omega)
        have htt : tryTok formatTokenKeys ('M' :: 'M' :: renderPat rest) =
            some ("MM", 2) := tryTok_fmt_tok PatTok.Mo2 (renderPat rest) hfol
        simp only [formatGo]
        rw [if_neg (show ¬('M' = '[') by decide), if_neg (show ¬('M' = ']') by decide), htt]
        show fieldStr tz x PatTok.Mo2 ++ formatGo tz x g false (renderPat rest) =
          renderOut tz x (PatItem.ptok PatTok.Mo2 :: rest)
        rw [hih]
        rfl
      | Da2 =>
        have hr2 : renderPat (PatItem.ptok PatTok.Da2 :: rest) =
            'D' :: 'D' :: renderPat rest := rfl
        rw [hr2] at hfuel ⊢
        obtain ⟨g, rfl⟩ : ∃ g, f = g + 1 := ⟨f - 1, by simp at hfuel; omega⟩
        have hih := ih g hwr (by simp at hfuel; omega)
        have htt : tryTok formatTokenKeys ('D' :: 'D' :: renderPat rest) =
            some ("DD", 2) := tryTok_fmt_tok PatTok.Da2 (renderPat rest) hfol
        simp only [formatGo]
        rw [if_neg (show ¬('D' = '[') by decide), if_neg (show ¬('D' = ']') by decide), htt]
        show fieldStr tz x PatTok.Da2 ++ formatGo tz x g false (renderPat rest) =
          renderOut tz x (PatItem.ptok PatTok.Da2 :: rest)
        rw [hih]
        rfl
      | Ho2 =>
        have hr2 : renderPat (PatItem.ptok PatTok.Ho2 :: rest) =
            'H' :: 'H' :: renderPat rest := rfl
        rw [hr2] at hfuel ⊢
        obtain ⟨g, rfl⟩ : ∃ g, f = g + 1 := ⟨f - 1, by simp at hfuel; omega⟩
        have hih := ih g hwr (by simp at hfuel; omega)
        have htt : tryTok formatTokenKeys ('H' :: 'H' :: renderPat rest) =
            some ("HH", 2) := tryTok_fmt_tok PatTok.Ho2 (renderPat rest) hfol
        simp only [formatGo]
        rw [if_neg (show ¬('H' = '[') by decide), if_neg (show ¬('H' = ']') by decide), htt]
        show fieldStr tz x PatTok.Ho2 ++ formatGo tz x g false (renderPat rest) =
          renderOut tz x (PatItem.ptok PatTok.Ho2 :: rest)
        rw [hih]
        rfl
      | Mi2 =>
        have hr2 : renderPat (PatItem.ptok PatTok.Mi2 :: rest) =
            'm' :: 'm' :: renderPat rest := rfl
        rw [hr2] at hfuel ⊢
        obtain ⟨g, rfl⟩ : ∃ g, f = g + 1 := ⟨f - 1, by simp at hfuel; omega⟩
        have hih := ih g hwr (by simp at hfuel; omega)
        have htt : tryTok formatTokenKeys ('m' :: 'm' :: renderPat rest) =
            some ("mm", 2) := tryTok_fmt_tok PatTok.Mi2 (renderPat rest) hfol
        simp only [formatGo]
        rw [if_neg (show ¬('m' = '[') by decide), if_neg (show ¬('m' = ']') by decide), htt]
        show fieldStr tz x PatTok.Mi2 ++ formatGo tz x g false (renderPat rest) =
          renderOut tz x (PatItem.ptok PatTok.Mi2 :: rest)
        rw [hih]
        rfl
      | Se2 =>
        have hr2 : renderPat (PatItem.ptok PatTok.Se2 :: rest) =
            's' :: 's' :: renderPat rest := rfl
        rw [hr2] at hfuel ⊢
        obtain ⟨g, rfl⟩ : ∃ g, f = g + 1 := ⟨f - 1, by simp at hfuel; omega⟩
        have hih := ih g hwr (by simp at hfuel; omega)
        have htt : tryTok formatTokenKeys ('s' :: 's' :: renderPat rest) =
            some ("ss", 2) := tryTok_fmt_tok PatTok.Se2 (renderPat rest) hfol
        simp only [formatGo]
        rw [if_neg (show ¬('s' = '[') by decide), if_neg (show ¬('s' = ']') by decide), htt]
        show fieldStr tz x PatTok.Se2 ++ formatGo tz x g false (renderPat rest) =
          renderOut tz x (PatItem.ptok PatTok.Se2 :: rest)
        rw [hih]
        rfl

/-- The parser's segmenter on a rendered well-formed pattern produces exactly
one segment per pattern item. -/
theorem segmentGoF_render (items : List PatItem) :
    ∀ f : Nat, wfItems items → (renderPat items).length ≤ f →
      segmentGoF f (renderPat items) = items.map segOf := by
  induction items with
  | nil =>
    intro f _ _
    cases f <;> rfl
  | cons it rest ih =>
    intro f hwf hfuel
    cases it with
    | psep c =>
      obtain ⟨hc, hwr⟩ := hwf
      have hr2 : renderPat (PatItem.psep c :: rest) = c :: renderPat rest := rfl
      rw [hr2] at hfuel ⊢
      obtain ⟨g, rfl⟩ : ∃ g, f = g + 1 := ⟨f - 1, by simp at hfuel; omega⟩
      have hih := ih g hwr (by simp at hfuel; omega)
      have htt := tryTok_parse_sep c (renderPat rest) hc
      simp only [segmentGoF]
      rw [htt]
      show Seg.lit c :: segmentGoF g (renderPat rest) =
        (PatItem.psep c :: rest).map segOf
      rw [hih]
      rfl
    | ptok t =>
      obtain ⟨hh, hwr⟩ := hwf
      have hfol := headNotTok_render rest hwr hh
      cases t with
      | Y4 =>
        have hr2 : renderPat (PatItem.ptok PatTok.Y4 :: rest) =
            'Y' :: 'Y' :: 'Y' :: 'Y' :: renderPat rest := rfl
        rw [hr2] at hfuel ⊢
        obtain ⟨g, rfl⟩ : ∃ g, f = g + 1 := ⟨f - 1, by simp at hfuel; omega⟩
        have hih := ih g hwr (by simp at hfuel; omega)
        have htt : tryTok parseTokenKeys ('Y' :: 'Y' :: 'Y' :: 'Y' :: renderPat rest) =
            some ("YYYY", 4) := tryTok_parse_tok PatTok.Y4 (renderPat rest) hfol
        simp only [segmentGoF]
        rw [htt]
        show Seg.token "YYYY" :: segmentGoF g (renderPat rest) =
          (PatItem.ptok PatTok.Y4 :: rest).map segOf
        rw [hih]
        rfl
      | Mo2 =>
        have hr2 : renderPat (PatItem.ptok PatTok.Mo2 :: rest) =
            'M' :: 'M' :: renderPat rest := rfl
        rw [hr2] at hfuel ⊢
        obtain ⟨g, rfl⟩ : ∃ g, f = g + 1 := ⟨f - 1, by simp at hfuel; omega⟩
        have hih := ih g hwr (by simp at hfuel; omega)
        have htt : tryTok parseTokenKeys ('M' :: 'M' :: renderPat rest) =
            some ("MM", 2) := tryTok_parse_tok PatTok.Mo2 (renderPat rest) hfol
        simp only [segmentGoF]
        rw [htt]
        show Seg.token "MM" :: segmentGoF g (renderPat rest) =
          (PatItem.ptok PatTok.Mo2 :: rest).map segOf
        rw [hih]
        rfl
      | Da2 =>
        have hr2 : renderPat (PatItem.ptok PatTok.Da2 :: rest) =
            'D' :: 'D' :: renderPat rest := rfl
        rw [hr2] at hfuel ⊢
        obtain ⟨g, rfl⟩ : ∃ g, f = g + 1 := ⟨f - 1, by simp at hfuel; omega⟩
        have hih := ih g hwr (by simp at hfuel; omega)
        have htt : tryTok parseTokenKeys ('D' :: 'D' :: renderPat rest) =
            some ("DD", 2) := tryTok_parse_tok PatTok.Da2 (renderPat rest) hfol
        simp only [segmentGoF]
        rw [htt]
        show Seg.token "DD" :: segmentGoF g (renderPat rest) =
          (PatItem.ptok PatTok.Da2 :: rest).map segOf
        rw [hih]
        rfl
      | Ho2 =>
        have hr2 : renderPat (PatItem.ptok PatTok.Ho2 :: rest) =
            'H' :: 'H' :: renderPat rest := rfl
        rw [hr2] at hfuel ⊢
        obtain ⟨g, rfl⟩ : ∃ g, f = g + 1 := ⟨f - 1, by simp at hfuel; omega⟩
        have hih := ih g hwr (by simp at hfuel; omega)
        have htt : tryTok parseTokenKeys ('H' :: 'H' :: renderPat rest) =
            some ("HH", 2) := tryTok_parse_tok PatTok.Ho2 (renderPat rest) hfol
        simp only [segmentGoF]
        rw [htt]
        show Seg.token "HH" :: segmentGoF g (renderPat rest) =
          (PatItem.ptok PatTok.Ho2 :: rest).map segOf
        rw [hih]
        rfl
      | Mi2 =>
        have hr2 : renderPat (PatItem.ptok PatTok.Mi2 :: rest) =
            'm' :: 'm' :: renderPat rest := rfl
        rw [hr2] at hfuel ⊢
        obtain ⟨g, rfl⟩ : ∃ g, f = g + 1 := ⟨f - 1, by simp at hfuel; omega⟩
        have hih := ih g hwr (by simp at hfuel; omega)
        have htt : tryTok parseTokenKeys ('m' :: 'm' :: renderPat rest) =
            some ("mm", 2) := tryTok_parse_tok PatTok.Mi2 (renderPat rest) hfol
        simp only [segmentGoF]
        rw [htt]
        show Seg.token "mm" :: segmentGoF g (renderPat rest) =
          (PatItem.ptok PatTok.Mi2 :: rest).map segOf
        rw [hih]
        rfl
      | Se2 =>
        have hr2 : renderPat (PatItem.ptok PatTok.Se2 :: rest) =
            's' :: 's' :: renderPat rest := rfl
        rw [hr2] at hfuel ⊢
        obtain ⟨g, rfl⟩ : ∃ g, f = g + 1 := ⟨f - 1, by simp at hfuel; omega⟩
        have hih := ih g hwr (by simp at hfuel; omega)
        have htt : tryTok parseTokenKeys ('s' :: 's' :: renderPat rest) =
            some ("ss", 2) := tryTok_parse_tok PatTok.Se2 (renderPat rest) hfol
        simp only [segmentGoF]
        rw [htt]
        show Seg.token "ss" :: segmentGoF g (renderPat rest) =
          (PatItem.ptok PatTok.Se2 :: rest).map segOf
        rw [hih]
        rfl

/-- Segmentation of a rendered well-formed pattern. -/
theorem segmentGo_render (items : List PatItem) (hwf : wfItems items) :
    segmentGo (renderPat items) = items.map segOf :=
  segmentGoF_render items (renderPat items).length hwf (le_refl _)

/-- Candidate capture widths of a C4 token are exactly its own width. -/
theorem candidateLens_tok (t : PatTok) (cs : List Char) :
    candidateLens (patTokStr t) cs = [(patTokStr t).toList.length] := by
  cases t <;> rfl

/-- A digit capture passes a C4 token's character class. -/
theorem capClassOk_tok (t : PatTok) (cap : List Char)
    (h : cap.all isAsciiDigit = true) : capClassOk (patTokStr t) cap = true := by
  cases t <;> simp only [capClassOk, patTokStr] <;>
    rw [if_neg (by decide)] <;> exact h

/-- The backtracking matcher on a rendered pattern's own output matches and
captures exactly the rendered field string of every token item. -/
theorem matchSegs_render (tz x : Int) (hb : fieldsBounded tz x) :
    ∀ items : List PatItem,
      matchSegs (items.map segOf) (renderOut tz x items).toList =
        some (capsOf tz x items) := by
  intro items
  induction items with
  | nil => rfl
  | cons it rest ih =>
    cases it with
    | psep c =>
      have hm : (PatItem.psep c :: rest).map segOf = Seg.lit c :: rest.map segOf := rfl
      have hr : (renderOut tz x (PatItem.psep c :: rest)).toList =
          c :: (renderOut tz x rest).toList := rfl
      rw [hm, hr]
      simp only [matchSegs]
      rw [if_pos trivial, ih]
      rfl
    | ptok t =>
      obtain ⟨l, hfs, hlen, hdig, hval⟩ := fieldStr_spec tz x t hb
      have hm : (PatItem.ptok t :: rest).map segOf =
          Seg.token (patTokStr t) :: rest.map segOf := rfl
      have hr : (renderOut tz x (PatItem.ptok t :: rest)).toList =
          l ++ (renderOut tz x rest).toList := by
        show (fieldStr tz x t ++ renderOut tz x rest).toList = _
        rw [toList_append, hfs, toList_mk]
      rw [hm, hr]
      simp only [matchSegs]
      rw [candidateLens_tok]
      simp only [List.findSome?]
      have hle : (patTokStr t).toList.length ≤ (l ++ (renderOut tz x rest).toList).length := by
        simp only [List.length_append]
        omega
      have htake : (l ++ (renderOut tz x rest).toList).take (patTokStr t).toList.length = l := by
        rw [← hlen]
        exact List.take_left l _
      have hdrop : (l ++ (renderOut tz x rest).toList).drop (patTokStr t).toList.length =
          (renderOut tz x rest).toList := by
        rw [← hlen]
        exact List.drop_left l _
      rw [if_pos hle, htake, hdrop, if_pos (capClassOk_tok t l hdig), ih]
      show some ((patTokStr t, String.mk l) :: capsOf tz x rest) = _
      rw [← hfs]
      rfl

/-- Token strings of distinct C4 tokens differ. -/
theorem patTokStr_inj (t t2 : PatTok) (h : patTokStr t = patTokStr t2) : t = t2 := by
  cases t <;> cases t2 <;> first | rfl | exact absurd h (by decide)

/-- Every capture the matcher produces on a rendered pattern is a token name
with its rendered field string. -/
theorem capsOf_mem (tz x : Int) (items : List PatItem) (p : String × String)
    (hp : p ∈ capsOf tz x items) :
    ∃ t : PatTok, PatItem.ptok t ∈ items ∧ p = (patTokStr t, fieldStr tz x t) := by
  simp only [capsOf, List.mem_filterMap] at hp
  obtain ⟨it, hit, hsome⟩ := hp
  cases it with
  | ptok t => exact ⟨t, hit, by simpa using hsome.symm⟩
  | psep c => simp at hsome

/-- A token item of the pattern contributes its capture. -/
theorem capsOf_tok_mem (tz x : Int) (items : List PatItem) (t : PatTok)
    (h : PatItem.ptok t ∈ items) :
    (patTokStr t, fieldStr tz x t) ∈ capsOf tz x items := by
  simp only [capsOf, List.mem_filterMap]
  exact ⟨PatItem.ptok t, h, rfl⟩

/-- The last capture of a token present in the pattern is its rendered field
string (all captures under one name coincide on a rendered pattern). -/
theorem lastCapture_tok (tz x : Int) (items : List PatItem) (t : PatTok)
    (h : PatItem.ptok t ∈ items) :
    lastCapture (capsOf tz x items) (patTokStr t) = some (fieldStr tz x t) := by
  unfold lastCapture
  have hne : (capsOf tz x items).filter (fun p => p.1 == patTokStr t) ≠ [] := by
    have hmem : (patTokStr t, fieldStr tz x t) ∈
        (capsOf tz x items).filter (fun p => p.1 == patTokStr t) :=
      List.mem_filter.mpr ⟨capsOf_tok_mem tz x items t h, by simp⟩
    intro h0
    rw [h0] at hmem
    simp at hmem
  have hall : ∀ p ∈ (capsOf tz x items).filter (fun p => p.1 == patTokStr t),
      p = (patTokStr t, fieldStr tz x t) := by
    intro p hp
    obtain ⟨hmem, hname⟩ := List.mem_filter.mp hp
    obtain ⟨t2, _, rfl⟩ := capsOf_mem tz x items p hmem
    rw [patTokStr_inj t2 t (by simpa using hname)]
  rw [getLast?_all_eq _ _ hne hall]
  rfl

/-- A name that is no C4 token's name is never captured on a rendered
pattern. -/
theorem lastCapture_absent (tz x : Int) (items : List PatItem) (k : String)
    (hk : ∀ t : PatTok, patTokStr t ≠ k) :
    lastCapture (capsOf tz x items) k = none := by
  unfold lastCapture
  have hnil : (capsOf tz x items).filter (fun p => p.1 == k) = [] := by
    rw [List.filter_eq_nil_iff]
    intro p hp
    obtain ⟨t2, _, rfl⟩ := capsOf_mem tz x items p hp
    simp [hk t2]
  rw [hnil]
  rfl

/-- `digitsVal` inverts the rendering of a C4 field. -/
theorem digitsVal_fieldStr (tz x : Int) (t : PatTok) (hb : fieldsBounded tz x) :
    digitsVal (fieldStr tz x t) = fieldValOf tz x t := by
  obtain ⟨l, hfs, _, _, hval⟩ := fieldStr_spec tz x t hb
  rw [hfs]
  exact hval

/-- An ASCII digit is not trimmable whitespace. -/
theorem digit_not_ws (c : Char) (h : isAsciiDigit c = true) :
    isJsWhitespace c = false := by
  simp only [isAsciiDigit, Bool.and_eq_true, decide_eq_true_eq] at h
  simp only [isJsWhitespace, Bool.or_eq_false_iff, beq_eq_false_iff_ne, ne_eq]
  refine ⟨⟨⟨?_, ?_⟩, ?_⟩, ?_⟩ <;> rintro rfl <;> revert h <;> decide

/-- The rendered output of a pattern containing a token contains an ASCII
digit. -/
theorem renderOut_has_digit (tz x : Int) (items : List PatItem)
    (hb : fieldsBounded tz x) (t : PatTok) (h : PatItem.ptok t ∈ items) :
    ∃ c, c ∈ (renderOut tz x items).toList ∧ isAsciiDigit c = true := by
  induction items with
  | nil => simp at h
  | cons it rest ih =>
    rcases List.mem_cons.mp h with heq | hmem
    · obtain ⟨l, hfs, hlen, hdig, _⟩ := fieldStr_spec tz x t hb
      have hll : 2 ≤ l.length := by
        rw [hlen]
        cases t <;> decide
      obtain ⟨a, l2, rfl⟩ : ∃ a l2, l = a :: l2 := by
        cases l with
        | nil => simp at hll
        | cons a l2 => exact ⟨a, l2, rfl⟩
      refine ⟨a, ?_, ?_⟩
      · rw [← heq]
        show a ∈ (fieldStr tz x t ++ renderOut tz x rest).toList
        rw [toList_append, hfs, toList_mk]
        simp
      · simp only [List.all_cons, Bool.and_eq_true] at hdig
        exact hdig.1
    · obtain ⟨c, hc1, hc2⟩ := ih hmem
      refine ⟨c, ?_, hc2⟩
      cases it with
      | ptok t2 =>
        rw [show renderOut tz x (PatItem.ptok t2 :: rest) =
          fieldStr tz x t2 ++ renderOut tz x rest from rfl, toList_append]
        exact List.mem_append_right _ hc1
      | psep c2 =>
        rw [show renderOut tz x (PatItem.psep c2 :: rest) =
          String.mk [c2] ++ renderOut tz x rest from rfl, toList_append]
        exact List.mem_append_right _ hc1

/-- A pattern containing the year token renders a letter `Y`. -/
theorem renderPat_has_Y (items : List PatItem)
    (h : PatItem.ptok PatTok.Y4 ∈ items) : 'Y' ∈ renderPat items := by
  induction items with
  | nil => simp at h
  | cons it rest ih =>
    rcases List.mem_cons.mp h with heq | hmem
    · rw [← heq]
      show 'Y' ∈ 'Y' :: 'Y' :: 'Y' :: 'Y' :: renderPat rest
      simp
    · rw [show renderPat (it :: rest) = renderItem it ++ renderPat rest from rfl]
      exact List.mem_append_right _ (ih hmem)

/-- Magnitude bound on the day number of a four-digit-year civil date. -/
theorem daysFromCivil_bound (y m d : Int) (hy1 : 1000 ≤ y) (hy2 : y ≤ 9999)
    (hm1 : 1 ≤ m) (hm2 : m ≤ 12) (hd1 : 1 ≤ d) (hd2 : d ≤ 31) :
    -800000 ≤ daysFromCivil y m d ∧ daysFromCivil y m d ≤ 3300000 := by
  simp only [daysFromCivil]
  split_ifs <;> constructor <;> omega

/-- Once the guards pass and the regex matches, `parseCustom` resolves the
captured fields and builds the instant. -/
theorem parseCustom_eval (tz nowYear : Int) (input fmt : String)
    (caps : List (String × String))
    (h1 : ¬(jsTrim input = "" ∨ jsTrim fmt = ""))
    (h2 : ¬(fmt.toList.length * 2 ≤ (segmentGo fmt.toList).length))
    (h3 : matchSegs (segmentGo fmt.toList) input.toList = some caps) :
    parseCustom tz nowYear input fmt =
      (if jsValidTime (makeInstant tz
          (match lastCapture caps "YYYY" with
           | some v => digitsVal v
           | none =>
             match lastCapture caps "YY" with
             | some v => 2000 + digitsVal v
             | none => nowYear)
          ((match lastCapture caps "MMMM" with
            | some v =>
              match monthIdx MONTH_NAMES_FULL v with
              | some idx => (idx : Int) + 1
              | none => 1
            | none =>
              match lastCapture caps "MMM" with
              | some v =>
                match monthIdx MONTH_NAMES_SHORT v with
                | some idx => (idx : Int) + 1
                | none => 1
              | none =>
                match lastCapture caps "MM" with
                | some v => digitsVal v
                | none =>
                  match lastCapture caps "M" with
                  | some v => digitsVal v
                  | none => 1) - 1)
          (match lastCapture caps "DD" with
           | some v => digitsVal v
           | none =>
             match lastCapture caps "D" with
             | some v => digitsVal v
             | none => 1)
          (match lastCapture caps "HH" with
           | some v => digitsVal v
           | none =>
             match lastCapture caps "H" with
             | some v => digitsVal v
             | none => 0)
          (match lastCapture caps "mm" with
           | some v => digitsVal v
           | none =>
             match lastCapture caps "m" with
             | some v => digitsVal v
             | none => 0)
          (match lastCapture caps "ss" with
           | some v => digitsVal v
           | none =>
             match lastCapture caps "s" with
             | some v => digitsVal v
             | none => 0)
          (match lastCapture caps "SSS" with
           | some v => digitsVal v
           | none => 0)) then
        ParseResult.success (makeInstant tz
          (match lastCapture caps "YYYY" with
           | some v => digitsVal v
           | none =>
             match lastCapture caps "YY" with
             | some v => 2000 + digitsVal v
             | none => nowYear)
          ((match lastCapture caps "MMMM" with
            | some v =>
              match monthIdx MONTH_NAMES_FULL v with
              | some idx => (idx : Int) + 1
              | none => 1
            | none =>
              match lastCapture caps "MMM" with
              | some v =>
                match monthIdx MONTH_NAMES_SHORT v with
                | some idx => (idx : Int) + 1
                | none => 1
              | none =>
                match lastCapture caps "MM" with
                | some v => digitsVal v
                | none =>
                  match lastCapture caps "M" with
                  | some v => digitsVal v
                  | none => 1) - 1)
          (match lastCapture caps "DD" with
           | some v => digitsVal v
           | none =>
             match lastCapture caps "D" with
             | some v => digitsVal v
             | none => 1)
          (match lastCapture caps "HH" with
           | some v => digitsVal v
           | none =>
             match lastCapture caps "H" with
             | some v => digitsVal v
             | none => 0)
          (match lastCapture caps "mm" with
           | some v => digitsVal v
           | none =>
             match lastCapture caps "m" with
             | some v => digitsVal v
             | none => 0)
          (match lastCapture caps "ss" with
           | some v => digitsVal v
           | none =>
             match lastCapture caps "s" with
             | some v => digitsVal v
             | none => 0)
          (match lastCapture caps "SSS" with
           | some v => digitsVal v
           | none => 0))
      else ParseResult.failure ("Invalid date components parsed from \"" ++ input ++ "\"")) := by
  simp only [parseCustom]
  rw [if_neg h1, if_neg h2, h3]

/-- On the formatter's own output over a well-formed pattern containing all
six C4 tokens, `parseCustom` succeeds and rebuilds the instant from the six
recovered fields (milliseconds are not representable and parse as zero). -/
theorem parseCustom_render (tz nowYear x : Int) (items : List PatItem)
    (hwf : wfItems items)
    (hY : PatItem.ptok PatTok.Y4 ∈ items) (hM : PatItem.ptok PatTok.Mo2 ∈ items)
    (hD : PatItem.ptok PatTok.Da2 ∈ items) (hH : PatItem.ptok PatTok.Ho2 ∈ items)
    (hMi : PatItem.ptok PatTok.Mi2 ∈ items) (hS : PatItem.ptok PatTok.Se2 ∈ items)
    (hb : fieldsBounded tz x) (htz1 : -86400000 ≤ tz) (htz2 : tz ≤ 86400000) :
    parseCustom tz nowYear (renderOut tz x items) (String.mk (renderPat items)) =
      ParseResult.success (makeInstant tz (localFields tz x).year
        ((localFields tz x).month0 + 1 - 1) (localFields tz x).day
        (localFields tz x).hour (localFields tz x).minute
        (localFields tz x).second 0) := by
  have h1 : ¬(jsTrim (renderOut tz x items) = "" ∨
      jsTrim (String.mk (renderPat items)) = "") := by
    rintro (h | h)
    · obtain ⟨c, hc1, hc2⟩ := renderOut_has_digit tz x items hb PatTok.Y4 hY
      exact jsTrim_ne_empty _ c hc1 (digit_not_ws c hc2) h
    · exact jsTrim_ne_empty _ 'Y'
        (by rw [toList_mk]; exact renderPat_has_Y items hY) (by decide) h
  have h2 : ¬((String.mk (renderPat items)).toList.length * 2 ≤
      (segmentGo (String.mk (renderPat items)).toList).length) := by
    rw [toList_mk, segmentGo_render items hwf]
    have hrl := renderPat_length items
    have hpos : 1 ≤ items.length := by
      cases items with
      | nil => simp at hY
      | cons it rest => simp
    simp only [List.length_map]
    omega
  have h3 : matchSegs (segmentGo (String.mk (renderPat items)).toList)
      (renderOut tz x items).toList = some (capsOf tz x items) := by
    rw [toList_mk, segmentGo_render items hwf]
    exact matchSegs_render tz x hb items
  rw [parseCustom_eval tz nowYear _ _ (capsOf tz x items) h1 h2 h3]
  have e1 : lastCapture (capsOf tz x items) "YYYY" = some (fieldStr tz x PatTok.Y4) :=
    lastCapture_tok tz x items PatTok.Y4 hY
  have e2 : lastCapture (capsOf tz x items) "MMMM" = none :=
    lastCapture_absent tz x items "MMMM" (by intro t; cases t <;> decide)
  have e3 : lastCapture (capsOf tz x items) "MMM" = none :=
    lastCapture_absent tz x items "MMM" (by intro t; cases t <;> decide)
  have e4 : lastCapture (capsOf tz x items) "MM" = some (fieldStr tz x PatTok.Mo2) :=
    lastCapture_tok tz x items PatTok.Mo2 hM
  have e5 : lastCapture (capsOf tz x items) "DD" = some (fieldStr tz x PatTok.Da2) :=
    lastCapture_tok tz x items PatTok.Da2 hD
  have e6 : lastCapture (capsOf tz x items) "HH" = some (fieldStr tz x PatTok.Ho2) :=
    lastCapture_tok tz x items PatTok.Ho2 hH
  have e7 : lastCapture (capsOf tz x items) "mm" = some (fieldStr tz x PatTok.Mi2) :=
    lastCapture_tok tz x items PatTok.Mi2 hMi
  have e8 : lastCapture (capsOf tz x items) "ss" = some (fieldStr tz x PatTok.Se2) :=
    lastCapture_tok tz x items PatTok.Se2 hS
  have e9 : lastCapture (capsOf tz x items) "SSS" = none :=
    lastCapture_absent tz x items "SSS" (by intro t; cases t <;> decide)
  rw [e1, e2, e3, e4, e5, e6, e7, e8, e9]
  have v1 : digitsVal (fieldStr tz x PatTok.Y4) = (localFields tz x).year :=
    digitsVal_fieldStr tz x PatTok.Y4 hb
  have v2 : digitsVal (fieldStr tz x PatTok.Mo2) = (localFields tz x).month0 + 1 :=
    digitsVal_fieldStr tz x PatTok.Mo2 hb
  have v3 : digitsVal (fieldStr tz x PatTok.Da2) = (localFields tz x).day :=
    digitsVal_fieldStr tz x PatTok.Da2 hb
  have v4 : digitsVal (fieldStr tz x PatTok.Ho2) = (localFields tz x).hour :=
    digitsVal_fieldStr tz x PatTok.Ho2 hb
  have v5 : digitsVal (fieldStr tz x PatTok.Mi2) = (localFields tz x).minute :=
    digitsVal_fieldStr tz x PatTok.Mi2 hb
  have v6 : digitsVal (fieldStr tz x PatTok.Se2) = (localFields tz x).second :=
    digitsVal_fieldStr tz x PatTok.Se2 hb
  show (if jsValidTime (makeInstant tz (digitsVal (fieldStr tz x PatTok.Y4))
      (digitsVal (fieldStr tz x PatTok.Mo2) - 1) (digitsVal (fieldStr tz x PatTok.Da2))
      (digitsVal (fieldStr tz x PatTok.Ho2)) (digitsVal (fieldStr tz x PatTok.Mi2))
      (digitsVal (fieldStr tz x PatTok.Se2)) 0) then
    ParseResult.success (makeInstant tz (digitsVal (fieldStr tz x PatTok.Y4))
      (digitsVal (fieldStr tz x PatTok.Mo2) - 1) (digitsVal (fieldStr tz x PatTok.Da2))
      (digitsVal (fieldStr tz x PatTok.Ho2)) (digitsVal (fieldStr tz x PatTok.Mi2))
      (digitsVal (fieldStr tz x PatTok.Se2)) 0)
    else ParseResult.failure _) = _
  rw [v1, v2, v3, v4, v5, v6]
  obtain ⟨b1, b2, b3, b4, b5, b6, b7, b8, b9, b10, b11, b12⟩ := hb
  have hmk : makeInstant tz (localFields tz x).year ((localFields tz x).month0 + 1 - 1)
      (localFields tz x).day (localFields tz x).hour (localFields tz x).minute
      (localFields tz x).second 0 =
      daysFromCivil (localFields tz x).year ((localFields tz x).month0 + 1)
        (localFields tz x).day * 86400000 +
        ((localFields tz x).hour * 3600000 + (localFields tz x).minute * 60000 +
          (localFields tz x).second * 1000 + 0) - tz := by
    have hdiv : ((localFields tz x).month0 + 1 - 1) / 12 = 0 := by omega
    have hmod : ((localFields tz x).month0 + 1 - 1) % 12 = (localFields tz x).month0 := by
      omega
    simp only [makeInstant, makeDay]
    rw [if_neg (by omega), hdiv, hmod, add_zero]
  have hN := daysFromCivil_bound (localFields tz x).year ((localFields tz x).month0 + 1)
    (localFields tz x).day (by omega) (by omega) (by omega) (by omega) (by omega) (by omega)
  rw [if_pos ?_]
  rw [hmk]
  simp only [jsValidTime, decide_eq_true_eq]
  constructor <;> omega

/-- The four-digit-year hypothesis alone bounds every local field used by the
C4 rendering lemmas. -/
theorem fieldsBounded_of_year (tz x : Int) (h1 : 1000 ≤ (localFields tz x).year)
    (h2 : (localFields tz x).year ≤ 9999) : fieldsBounded tz x := by
  obtain ⟨y, m, d, msod, he, hms1, hms2, hm1, hm2, hd1, hd2, hback⟩ := localFields_spec tz x
  have hdb := daysInMonth_bounds y m
  rw [he] at h1 h2
  unfold fieldsBounded
  rw [he]
  dsimp only at h1 h2 ⊢
  exact ⟨h1, h2, by omega, by omega, by omega, by omega, by omega, by omega, by omega,
    by omega, by omega, by omega⟩

/-- `format` on a rendered abstract pattern. -/
theorem format_render (tz x : Int) (items : List PatItem) (hwf : wfItems items) :
    format tz x (String.mk (renderPat items)) = renderOut tz x items := by
  unfold format
  rw [toList_mk]
  exact formatGo_render tz x items (renderPat items).length hwf (le_refl _)

/-- C4: for every instant whose local year has four digits and every
well-formed pattern over the tokens `YYYY MM DD HH mm ss` (separators are
single characters that are no token character, bracket, or star, and no two
tokens are adjacent) containing all six tokens, `parseCustom` applied to the
formatted output with the same pattern succeeds, and the year, month, day,
hour, minute, and second local fields of the parsed instant equal those of
the original (sub-second precision has no token and is dropped). -/
theorem c4_format_parse_roundtrip (tz nowYear x : Int) (items : List PatItem)
    (hwf : wfItems items)
    (hY : PatItem.ptok PatTok.Y4 ∈ items) (hM : PatItem.ptok PatTok.Mo2 ∈ items)
    (hD : PatItem.ptok PatTok.Da2 ∈ items) (hH : PatItem.ptok PatTok.Ho2 ∈ items)
    (hMi : PatItem.ptok PatTok.Mi2 ∈ items) (hS : PatItem.ptok PatTok.Se2 ∈ items)
    (hyr1 : 1000 ≤ (localFields tz x).year) (hyr2 : (localFields tz x).year ≤ 9999)
    (htz1 : -86400000 ≤ tz) (htz2 : tz ≤ 86400000) :
    ∃ r : Int, parseCustom tz nowYear (format tz x (String.mk (renderPat items)))
        (String.mk (renderPat items)) = ParseResult.success r ∧
      (localFields tz r).year = (localFields tz x).year ∧
      (localFields tz r).month0 = (localFields tz x).month0 ∧
      (localFields tz r).day = (localFields tz x).day ∧
      (localFields tz r).hour = (localFields tz x).hour ∧
      (localFields tz r).minute = (localFields tz x).minute ∧
      (localFields tz r).second = (localFields tz x).second := by
  have hb := fieldsBounded_of_year tz x hyr1 hyr2
  rw [format_render tz x items hwf]
  refine ⟨_, parseCustom_render tz nowYear x items hwf hY hM hD hH hMi hS hb htz1 htz2, ?_⟩
  obtain ⟨y, m, d, msod, he, hms1, hms2, hm1, hm2, hd1, hd2, hback⟩ := localFields_spec tz x
  rw [he] at hyr1 hyr2 ⊢
  dsimp only at hyr1 hyr2 ⊢
  rw [show m - 1 + 1 - 1 = m - 1 from by ring]
  have hmk : makeInstant tz y (m - 1) d (msod / 3600000) (msod / 60000 % 60)
      (msod / 1000 % 60) 0 =
      daysFromCivil y m d * 86400000 +
        (msod / 3600000 * 3600000 + msod / 60000 % 60 * 60000 +
          msod / 1000 % 60 * 1000 + 0) - tz := by
    have hdiv : (m - 1) / 12 = 0 := by omega
    have hmod : (m - 1) % 12 = m - 1 := by omega
    simp only [makeInstant, makeDay]
    rw [if_neg (by omega), hdiv, hmod, add_zero]
    rw [show m - 1 + 1 = m from by ring]
  rw [hmk]
  rw [localFields_make tz (daysFromCivil y m d)
    (msod / 3600000 * 3600000 + msod / 60000 % 60 * 60000 + msod / 1000 % 60 * 1000 + 0)
    y m d rfl (by omega) (by omega) hm1 hm2 hd1 hd2]
  dsimp only
  exact ⟨rfl, rfl, rfl, by omega, by omega, by omega⟩

/-- Concrete instance of the C4 roundtrip: the pattern
`YYYY-MM-DD HH:mm:ss` at 2025-01-31T01:02:02Z with a UTC host timezone
satisfies every hypothesis, and the roundtrip succeeds with equal fields. -/
theorem c4_format_parse_roundtrip_witness :
    wfItems [PatItem.ptok PatTok.Y4, PatItem.psep '-', PatItem.ptok PatTok.Mo2,
      PatItem.psep '-', PatItem.ptok PatTok.Da2, PatItem.psep ' ',
      PatItem.ptok PatTok.Ho2, PatItem.psep ':', PatItem.ptok PatTok.Mi2,
      PatItem.psep ':', PatItem.ptok PatTok.Se2] ∧
    1000 ≤ (localFields 0 1738285322000).year ∧
    (localFields 0 1738285322000).year ≤ 9999 ∧
    (∃ r : Int, parseCustom 0 2026 (format 0 1738285322000 (String.mk (renderPat
        [PatItem.ptok PatTok.Y4, PatItem.psep '-', PatItem.ptok PatTok.Mo2,
         PatItem.psep '-', PatItem.ptok PatTok.Da2, PatItem.psep ' ',
         PatItem.ptok PatTok.Ho2, PatItem.psep ':', PatItem.ptok PatTok.Mi2,
         PatItem.psep ':', PatItem.ptok PatTok.Se2])))
        (String.mk (renderPat
        [PatItem.ptok PatTok.Y4, PatItem.psep '-', PatItem.ptok PatTok.Mo2,
         PatItem.psep '-', PatItem.ptok PatTok.Da2, PatItem.psep ' ',
         PatItem.ptok PatTok.Ho2, PatItem.psep ':', PatItem.ptok PatTok.Mi2,
         PatItem.psep ':', PatItem.ptok PatTok.Se2])) = ParseResult.success r ∧
      (localFields 0 r).year = (localFields 0 1738285322000).year ∧
      (localFields 0 r).month0 = (localFields 0 1738285322000).month0 ∧
      (localFields 0 r).day = (localFields 0 1738285322000).day ∧
      (localFields 0 r).hour = (localFields 0 1738285322000).hour ∧
      (localFields 0 r).minute = (localFields 0 1738285322000).minute ∧
      (localFields 0 r).second = (localFields 0 1738285322000).second) :=
  ⟨⟨trivial, rfl, trivial, rfl, trivial, rfl, trivial, rfl, trivial, rfl, trivial, trivial⟩,
   by decide, by decide,
   c4_format_parse_roundtrip 0 2026 1738285322000 _
     ⟨trivial, rfl, trivial, rfl, trivial, rfl, trivial, rfl, trivial, rfl, trivial, trivial⟩
     (by decide) (by decide) (by decide) (by decide) (by decide) (by decide)
     (by decide) (by decide) (by decide) (by decide)⟩

/-- C4 counterexample: the claim has no year restriction, but for an instant
with a three-digit local year the formatter emits the year unpadded
(`String(999)`) while the parser's `YYYY` pattern demands four digits, so the
roundtrip on `YYYY-MM-DD HH:mm:ss` at 0999-01-01T00:00:00Z fails instead of
succeeding. -/
theorem c4_year999_counterexample :
    format 0 (-30641760000000) "YYYY-MM-DD HH:mm:ss" = "999-01-01 00:00:00" ∧
    parseCustom 0 2026 (format 0 (-30641760000000) "YYYY-MM-DD HH:mm:ss")
        "YYYY-MM-DD HH:mm:ss" =
      ParseResult.failure
        "Input \"999-01-01 00:00:00\" does not match format \"YYYY-MM-DD HH:mm:ss\"" :=
  ⟨rfl, rfl⟩

end WW
